import Mathlib

/-!
Verification of the `next-llms-generator` crawl/extract/assemble core
(`src/generate.ts`), as a shallow embedding in Lean.

Modelling conventions:
* TypeScript strings are Lean `String`s (a `String` is a list of characters;
  JS `length` counts UTF-16 code units, Lean counts characters — identical on
  the ASCII data handled here).
* Fallible TypeScript code (functions that may `throw`) is modelled with
  `Except String`; `fetch` outcomes are supplied as explicit oracles
  (`Nat → Except String HttpResponse`, one outcome per attempt).
* The host-environment WHATWG `URL` / `URLSearchParams` classes used by
  `normalizeUrl` / `isInternalUrl` are modelled by an executable
  parser/serializer over `scheme://host/path?query#fragment` URLs
  (percent-encoding, case folding and dot-segment removal are not modelled;
  they do not affect the structural properties proved here).
* `Date` fields (`timestamp`) are omitted from `PageResult`: no claim
  mentions them and they carry real time.
-/

/-- `SitemapUrl` from `types.ts`: one `<url>` entry of a sitemap. -/
structure SitemapUrl where
  loc : String
  lastmod : Option String := none
deriving Repr, DecidableEq

/-- `PageResult` from `types.ts` (crawl outcome for one URL).
`timestamp` is omitted (real time). -/
structure PageResult where
  url : String
  title : String
  content : String
  success : Bool
  error : Option String := none
  contentLength : Nat
  lastmod : Option String := none
  language : Option String := none
  statusCode : Option Nat := none
  skipReason : Option String := none
  truncated : Bool := false
  originalLength : Option Nat := none
deriving Repr, DecidableEq

/-- The generator options used by the embedded pipeline stages
(`mergeWithDefaults` defaults from `generate.ts`). -/
structure GenOpts where
  siteUrl : String
  includePatterns : List String := []
  excludePatterns : List String := []
  maxPages : Nat := 5000
  keepQueryParams : List String := []
  enableRecursiveDiscovery : Bool := false
  maxRecursiveDepth : Nat := 3
  maxLinksPerPage : Nat := 50
  maxCharsPerPage : Nat := 200000
  maxTotalChars : Nat := 50000000
deriving Repr

deriving instance DecidableEq for Except

/-! ## Low-level string helpers (List Char level) -/

/-- `startsWithL pat s`: `pat` is a prefix of `s`. -/
def startsWithL : List Char → List Char → Bool
  | [], _ => true
  | _ :: _, [] => false
  | p :: ps, c :: cs => p == c && startsWithL ps cs

/-- Substring containment, models JS `String.prototype.includes`. -/
def containsSubL (pat : List Char) : List Char → Bool
  | [] => startsWithL pat []
  | c :: rest => startsWithL pat (c :: rest) || containsSubL pat rest

/-- Suffix test, models JS `String.prototype.endsWith`. -/
def endsWithL (pat s : List Char) : Bool :=
  decide (pat.length ≤ s.length) && startsWithL pat (s.drop (s.length - pat.length))

/-- JS whitespace test for the characters occurring in this code base
(models the trim set of `String.prototype.trim` restricted to ASCII). -/
def isWsChar (c : Char) : Bool :=
  c == ' ' || c == '\t' || c == '\n' || c == '\r'

/-- Models JS `String.prototype.trim` (ASCII whitespace). -/
def trimL (s : List Char) : List Char :=
  ((s.dropWhile isWsChar).reverse.dropWhile isWsChar).reverse

/-- String-level substring containment (JS `includes`). -/
def containsSub (s pat : String) : Bool := containsSubL pat.data s.data

/-- String-level suffix test (JS `endsWith`). -/
def endsWithStr (s pat : String) : Bool := endsWithL pat.data s.data

/-! ## Fetcher (`fetchWithRetry`, generate.ts lines 1148-1185) -/

/-- The observable part of a WHATWG `Response` used by `generate.ts`. -/
structure HttpResponse where
  status : Nat
  statusText : String
  contentType : String
  body : String
deriving Repr, DecidableEq

/-- JS `Response.ok`: status in the range 200-299. -/
def isOkStatus (status : Nat) : Bool := decide (200 ≤ status) && decide (status ≤ 299)

/-- The retry loop of `fetchWithRetry`. `attempts n` is the transport
outcome of the `n`-th fetch attempt (`Except.error` = thrown transport
error, `Except.ok` = a response). Mirrors the source exactly:
an OK response is returned; a non-2xx response raises
`GeneratorError("HTTP <status>: <statusText>")` inside the `try`, which the
`catch` either retries (with backoff, not modelled — pure delay) or, on the
last attempt, rethrows. Returns the result together with the number of
attempts performed. -/
def fetchLoop (attempts : Nat → Except String HttpResponse) (retries : Nat) :
    Nat → Nat → Except String HttpResponse × Nat
  | attempt, 0 =>
    (.error ("Failed to fetch after " ++ toString retries ++ " attempts"), attempt)
  | attempt, rem + 1 =>
    let outcome : Except String HttpResponse :=
      match attempts attempt with
      | .ok r =>
        if isOkStatus r.status then .ok r
        else .error ("HTTP " ++ toString r.status ++ ": " ++ r.statusText)
      | .error e => .error e
    match outcome with
    | .ok r => (.ok r, attempt + 1)
    | .error e =>
      if attempt == retries - 1 then (.error e, attempt + 1)
      else fetchLoop attempts retries (attempt + 1) rem

/-- `fetchWithRetry(url, retries = 3)`: result only. -/
def fetchWithRetry (attempts : Nat → Except String HttpResponse)
    (retries : Nat := 3) : Except String HttpResponse :=
  (fetchLoop attempts retries 0 retries).1

/-- Number of fetch attempts `fetchWithRetry` performs. -/
def fetchAttemptsUsed (attempts : Nat → Except String HttpResponse)
    (retries : Nat := 3) : Nat :=
  (fetchLoop attempts retries 0 retries).2

/-! ## Crawl worker (`crawlSinglePage`, generate.ts lines 683-783) -/

/-- Output of `extractContent` (title, markdown content, optional language). -/
structure ExtractedPage where
  title : String
  content : String
  language : Option String := none
deriving Repr, DecidableEq

/-- `crawlSinglePage`. `attempts` are the per-attempt fetch outcomes for this
URL; `extract` models `extractContent` (which may throw, hence `Except`);
`transform` models `options.contentTransformer`. Every branch of the source
is translated, including the non-OK-response branch that, given the actual
behaviour of `fetchWithRetry`, is unreachable. -/
def crawlSinglePage (attempts : Nat → Except String HttpResponse)
    (extract : String → String → Except String ExtractedPage)
    (transform : String → String → String)
    (url : String) (lastmod : Option String) : PageResult :=
  match fetchWithRetry attempts 3 with
  | .error e =>
    { url, title := "Skipped",
      content := "(Fetch/parse error: " ++ e ++ ")",
      success := false, error := some e, contentLength := 0,
      statusCode := some 0, skipReason := some "parse-error",
      truncated := false, lastmod }
  | .ok resp =>
    if !isOkStatus resp.status then
      { url, title := "Skipped",
        content := "Failed to fetch: " ++ toString resp.status ++ " " ++ resp.statusText,
        success := false, error := some ("HTTP " ++ toString resp.status),
        contentLength := 0, statusCode := some resp.status,
        skipReason := some ("http-" ++ toString resp.status),
        truncated := false, lastmod }
    else if !containsSub resp.contentType "text/html" then
      { url, title := "Skipped", content := "No content extracted.",
        success := false, error := some "Non-HTML content type",
        contentLength := 0, statusCode := some resp.status,
        skipReason := some "content-type", truncated := false, lastmod }
    else if resp.body.length > 5 * 1024 * 1024 then
      { url, title := "Skipped", content := "No content extracted.",
        success := false, error := some "Content too large",
        contentLength := 0, statusCode := some resp.status,
        skipReason := some "too-large", truncated := false, lastmod }
    else
      match extract url resp.body with
      | .error e =>
        { url, title := "Skipped",
          content := "(Fetch/parse error: " ++ e ++ ")",
          success := false, error := some e, contentLength := 0,
          statusCode := some 0, skipReason := some "parse-error",
          truncated := false, lastmod }
      | .ok ep =>
        let t := transform ep.content url
        { url, title := ep.title, content := t, success := true,
          error := none, contentLength := t.length,
          statusCode := some resp.status, skipReason := none,
          truncated := false, originalLength := some t.length,
          lastmod, language := ep.language }

/-! ## Crawl worker pool (`crawlPages`, generate.ts lines 644-678)

Workers share an atomic index cursor: each index `0..n-1` is claimed by
exactly one worker, the result is written at the claimed index, write order
is arbitrary (completion order). `order` below is the sequence of writes the
run performed; a run with at least one worker claims every index, so `order`
then contains every index. Entries whose `loc` is the empty string are
skipped by `if (!url) continue;`, their slot stays unset, and
`results.filter(Boolean)` removes the unset slots. -/

/-- One loop iteration of a worker that claimed index `i`: read the URL,
skip it when its `loc` is empty (`if (!url) continue;`), otherwise write
the crawl result into the slot at the claimed index. -/
def crawlWriteStep (crawl : SitemapUrl → PageResult) (urls : List SitemapUrl)
    (acc : List (Option PageResult)) (i : Nat) : List (Option PageResult) :=
  match urls[i]? with
  | some u => if u.loc = "" then acc else acc.set i (some (crawl u))
  | none => acc

/-- The results array after all writes in `order` have happened. -/
def crawlWrites (crawl : SitemapUrl → PageResult) (urls : List SitemapUrl)
    (order : List Nat) : List (Option PageResult) :=
  order.foldl (crawlWriteStep crawl urls) (List.replicate urls.length none)

/-- `crawlPages`: final filtered results for one concurrent run whose write
(completion) order was `order`. -/
def crawlPagesSchedule (crawl : SitemapUrl → PageResult) (urls : List SitemapUrl)
    (order : List Nat) : List PageResult :=
  (crawlWrites crawl urls order).reduceOption

/-! ## Assembler character limits (`applyCharacterLimits`, lines 1213-1238) -/

/-- The marker appended to a page clamped at `n` characters. -/
def truncMarker (n : Nat) : String :=
  "\n\n[TRUNCATED at " ++ toString n ++ " chars]"

/-- The per-page clamp performed inside the `applyCharacterLimits` loop:
content longer than `maxCharsPerPage` is cut to the limit with the marker
appended; `truncated` and `originalLength` are updated — `contentLength`
is not touched (exactly as in the source). -/
def perPageTruncate (o : GenOpts) (r : PageResult) : PageResult :=
  if r.content.length > o.maxCharsPerPage then
    { r with
      content := String.mk (r.content.data.take o.maxCharsPerPage) ++ truncMarker o.maxCharsPerPage,
      truncated := true,
      originalLength := some r.content.length }
  else r

/-- The `applyCharacterLimits` loop: `totalChars` is the running total;
the flag is `stats.globalLimitReached` (set exactly when the loop `break`s).
Note the source checks `totalChars >= maxTotalChars` BEFORE adding the next
page, so a page is included whenever the total so far is still below the
budget, even if including it overshoots. -/
def applyCharLoop (o : GenOpts) : List PageResult → Nat → List PageResult × Bool
  | [], _ => ([], false)
  | r :: rest, total =>
    if total ≥ o.maxTotalChars then ([], true)
    else
      let pr := perPageTruncate o r
      let res := applyCharLoop o rest (total + pr.content.length)
      (pr :: res.1, res.2)

/-- `applyCharacterLimits`: processed pages plus the global-limit flag. -/
def applyCharacterLimits (o : GenOpts) (pages : List PageResult) :
    List PageResult × Bool :=
  applyCharLoop o pages 0

/-- Sum of the `content` lengths of a list of page results. -/
def sumContentLengths (l : List PageResult) : Nat :=
  (l.map (fun r => r.content.length)).sum

/-! ## URL filtering (`filterUrls`, generate.ts lines 245-283) -/

/-- `matchesAnyPattern` for string patterns (`url.includes(pattern)`).
`RegExp` patterns are not modelled; the claims touching this function only
involve substring patterns. -/
def matchesAnyPattern (url : String) (patterns : List String) : Bool :=
  patterns.any (fun p => containsSub url p)

/-- `filterUrls` up to and including the `maxPages` slice (everything before
the empty-result fallback). -/
def filterUrlsCore (o : GenOpts) (urls : List SitemapUrl) : List SitemapUrl :=
  let f1 := if o.includePatterns.isEmpty then urls
            else urls.filter (fun u => matchesAnyPattern u.loc o.includePatterns)
  let f2 := if o.excludePatterns.isEmpty then f1
            else f1.filter (fun u => !matchesAnyPattern u.loc o.excludePatterns)
  f2.take o.maxPages

/-- `filterUrls`: pattern filtering, `maxPages` cap, then the fallback to
the bare site URL when nothing is left. -/
def filterUrls (o : GenOpts) (urls : List SitemapUrl) : List SitemapUrl :=
  let f3 := filterUrlsCore o urls
  if f3.isEmpty then [{ loc := o.siteUrl }] else f3

/-! ## WHATWG URL model (`normalizeUrl`, `isInternalUrl`, lines 419-457)

The source relies on the host environment's `URL` and `URLSearchParams`.
They are modelled here by an executable parser/serializer for
`scheme://host/path?query#fragment` URLs over character lists.
Percent-encoding, case folding, default-port and dot-segment normalization
are not modelled (each is itself idempotent in the real API, so the shape of
the properties proved here is unaffected). -/

/-- `splitAtChar c s = (before, rest)`: `before` is the part of `s` before
the first occurrence of `c`; `rest` is `some` of the part after it, or
`none` when `c` does not occur. -/
def splitAtChar (c : Char) : List Char → List Char × Option (List Char)
  | [] => ([], none)
  | x :: xs =>
    if x = c then ([], some xs)
    else
      let r := splitAtChar c xs
      (x :: r.1, r.2)

/-- A parsed URL object (the fields of `URL` this code base touches).
`search` and `hash` are stored without their `?`/`#` sigils; an empty list
means the component is absent. -/
structure UrlObj where
  scheme : List Char
  host : List Char
  pathname : List Char
  search : List Char
  hash : List Char
deriving Repr, DecidableEq

/-- `new URL(s)` for hierarchical `scheme://host...` URLs; `none` models a
thrown `TypeError`. The fragment is everything after the first `#`, the
query everything after the first `?` before the fragment; the scheme must be
nonempty and slash-free and be followed by `//`; the host is the part up to
the first `/` (it may carry a port after `:`), and must be nonempty; an
absent path is normalized to `/` as the real parser does. -/
def parseUrl (s : List Char) : Option UrlObj :=
  match (splitAtChar ':' (splitAtChar '?' (splitAtChar '#' s).1).1).2 with
  | none => none
  | some rest =>
    if (splitAtChar ':' (splitAtChar '?' (splitAtChar '#' s).1).1).1 = []
        ∨ '/' ∈ (splitAtChar ':' (splitAtChar '?' (splitAtChar '#' s).1).1).1 then none
    else
      match rest with
      | '/' :: '/' :: hostpath =>
        if (splitAtChar '/' hostpath).1 = [] then none
        else
          some { scheme := (splitAtChar ':' (splitAtChar '?' (splitAtChar '#' s).1).1).1,
                 host := (splitAtChar '/' hostpath).1,
                 pathname :=
                   match (splitAtChar '/' hostpath).2 with
                   | none => ['/']
                   | some p => '/' :: p,
                 search := (splitAtChar '?' (splitAtChar '#' s).1).2.getD [],
                 hash := (splitAtChar '#' s).2.getD [] }
      | _ => none

/-- `URL.prototype.toString` (for objects in the fragment of the model). -/
def serializeUrl (o : UrlObj) : List Char :=
  o.scheme ++ ':' :: '/' :: '/' :: o.host ++ o.pathname
    ++ (if o.search = [] then [] else '?' :: o.search)
    ++ (if o.hash = [] then [] else '#' :: o.hash)

/-- The well-formedness facts `parseUrl` guarantees about its output (and
which make serialization invertible): the scheme is nonempty and free of
`:` `/` `?` `#`; the host is nonempty and free of `/` `?` `#`; the path
starts with `/` and is free of `?` `#`; the query is free of `#`. -/
def UrlInv (o : UrlObj) : Prop :=
  o.scheme ≠ [] ∧ ':' ∉ o.scheme ∧ '/' ∉ o.scheme ∧ '?' ∉ o.scheme ∧ '#' ∉ o.scheme ∧
  o.host ≠ [] ∧ '/' ∉ o.host ∧ '?' ∉ o.host ∧ '#' ∉ o.host ∧
  (∃ p, o.pathname = '/' :: p) ∧ '?' ∉ o.pathname ∧ '#' ∉ o.pathname ∧
  '#' ∉ o.search

/-- Split a list at every occurrence of `c`. -/
def splitAll (c : Char) : List Char → List (List Char)
  | [] => [[]]
  | x :: xs =>
    if x = c then [] :: splitAll c xs
    else
      match splitAll c xs with
      | [] => [[x]]
      | a :: rest => (x :: a) :: rest

/-- `new URLSearchParams(search)`: split on `&`, drop empty pieces, split
each piece at the first `=` (a piece with no `=` gets the empty value). -/
def parseParams (s : List Char) : List (List Char × List Char) :=
  (splitAll '&' s).filterMap fun piece =>
    if piece = [] then none
    else
      match splitAtChar '=' piece with
      | (k, none) => some (k, [])
      | (k, some v) => some (k, v)

/-- `URLSearchParams.prototype.get`: value of the first pair named `k`. -/
def getParam (ps : List (List Char × List Char)) (k : List Char) :
    Option (List Char) :=
  (ps.find? (fun p => p.1 = k)).map (fun p => p.2)

/-- Drop every pair named `k`. -/
def removeKey (k : List Char) :
    List (List Char × List Char) → List (List Char × List Char)
  | [] => []
  | p :: ps => if p.1 = k then removeKey k ps else p :: removeKey k ps

/-- `URLSearchParams.prototype.set`: replace the first pair named `k`
(in place), drop the other pairs named `k`, or append when absent. -/
def setParam (k v : List Char) :
    List (List Char × List Char) → List (List Char × List Char)
  | [] => [(k, v)]
  | p :: ps => if p.1 = k then (k, v) :: removeKey k ps else p :: setParam k v ps

/-- `URLSearchParams.prototype.toString`: `k=v` pairs joined by `&`. -/
def serializeParams : List (List Char × List Char) → List Char
  | [] => []
  | [p] => p.1 ++ '=' :: p.2
  | p :: ps => p.1 ++ '=' :: p.2 ++ '&' :: serializeParams ps

/-- The `paramsToKeep` loop of `normalizeUrl`: for each name in
`keepQueryParams`, in order, copy its first value from `ps` when present. -/
def buildKept (keep : List (List Char)) (f : List Char → Option (List Char)) :
    List (List Char × List Char) :=
  keep.foldl
    (fun acc k =>
      match f k with
      | some v => setParam k v acc
      | none => acc)
    []

/-- The query string `normalizeUrl` installs when `keepQueryParams` is
nonempty. -/
def rebuildSearch (keep : List (List Char)) (s : List Char) : List Char :=
  serializeParams (buildKept keep (getParam (parseParams s)))

/-- `normalizeUrl` (character-list level): parse; on failure return the
input unchanged; clear the fragment; keep only the `keepQueryParams` query
parameters (all of them when the list is empty... none, per the source's
`else` branch); serialize. -/
def normalizeUrlL (keep : List (List Char)) (u : List Char) : List Char :=
  match parseUrl u with
  | none => u
  | some o =>
    serializeUrl
      { o with
        hash := [],
        search := if keep.isEmpty then [] else rebuildSearch keep o.search }

/-- `normalizeUrl` on strings. -/
def normalizeUrl (keep : List String) (u : String) : String :=
  String.mk (normalizeUrlL (keep.map String.data) u.data)

/-- `URL.hostname`: the host without any `:port` suffix. -/
def hostnameOf (u : List Char) : Option (List Char) :=
  (parseUrl u).map fun o => (splitAtChar ':' o.host).1

/-- `isInternalUrl`: both URLs parse and share a hostname. -/
def isInternalUrl (siteUrl u : String) : Bool :=
  match hostnameOf u.data, hostnameOf siteUrl.data with
  | some a, some b => a == b
  | _, _ => false

/-! ## Sitemap XML scraping (`extractUrlsFromXml`, lines 209-240)

The source scrapes XML with regular expressions
(`/<url>([\s\S]*?)<\/url>/g`, `/<loc>([^<]+)<\/loc>/`,
`/<lastmod>([^<]+)<\/lastmod>/`). The scraper below mirrors the regex
semantics: leftmost non-overlapping `<url>`...`</url>` blocks; inside a
block, the first `<loc>` occurrence followed by one-or-more non-`<`
characters and the literal close tag. -/

/-- `breakOn pat s`: split `s` around the first occurrence of `pat`
(`(before, after)` with the pattern removed); `none` if `pat` is absent. -/
def breakOn (pat : List Char) : List Char → Option (List Char × List Char)
  | [] => if startsWithL pat [] then some ([], []) else none
  | c :: rest =>
    if startsWithL pat (c :: rest) then some ([], (c :: rest).drop pat.length)
    else
      match breakOn pat rest with
      | some r => some (c :: r.1, r.2)
      | none => none

/-- Leftmost non-overlapping `opn`...`cls` blocks (regex `matchAll` with a
lazy group), fuel-bounded (the fuel `s.length` always suffices for the
nonempty tags used here). -/
def extractBlocksFuel (opn cls : List Char) : Nat → List Char → List (List Char)
  | 0, _ => []
  | fuel + 1, s =>
    match breakOn opn s with
    | none => []
    | some a =>
      match breakOn cls a.2 with
      | none => []
      | some b => b.1 :: extractBlocksFuel opn cls fuel b.2

/-- All `<url>`...`</url>` blocks of an XML document. -/
def extractBlocks (opn cls : List Char) (s : List Char) : List (List Char) :=
  extractBlocksFuel opn cls s.length s

/-- First occurrence of `opn` followed by one-or-more non-`<` characters and
then `cls`; on a failed candidate the scan resumes after that `opn`
occurrence, like a regex engine advancing its start position. Fuel-bounded. -/
def findTagValue (opn cls : List Char) : Nat → List Char → Option (List Char)
  | 0, _ => none
  | fuel + 1, s =>
    match breakOn opn s with
    | none => none
    | some a =>
      let v := a.2.takeWhile (fun c => c != '<')
      let rest := a.2.dropWhile (fun c => c != '<')
      if v ≠ [] ∧ startsWithL cls rest then some v
      else findTagValue opn cls fuel a.2

/-- All values of `opn`...`cls` tags (regex `matchAll`), fuel-bounded. -/
def findAllTagValues (opn cls : List Char) : Nat → List Char → List (List Char)
  | 0, _ => []
  | fuel + 1, s =>
    match breakOn opn s with
    | none => []
    | some a =>
      let v := a.2.takeWhile (fun c => c != '<')
      let rest := a.2.dropWhile (fun c => c != '<')
      if v ≠ [] ∧ startsWithL cls rest then
        v :: findAllTagValues opn cls fuel (rest.drop cls.length)
      else findAllTagValues opn cls fuel a.2

/-- One `<url>` block: `<loc>` (required, trimmed) and `<lastmod>`
(optional, trimmed). -/
def parseUrlBlock (block : List Char) : Option SitemapUrl :=
  match findTagValue "<loc>".data "</loc>".data block.length block with
  | none => none
  | some v =>
    some
      { loc := String.mk (trimL v),
        lastmod :=
          (findTagValue "<lastmod>".data "</lastmod>".data block.length block).map
            (fun w => String.mk (trimL w)) }

/-- `extractUrlsFromXml`: `<url>` blocks first; when none yields a location,
fall back to scraping bare `<loc>` tags from the whole document. -/
def extractUrlsFromXml (xml : String) : List SitemapUrl :=
  let cs := xml.data
  let fromBlocks :=
    (extractBlocks "<url>".data "</url>".data cs).filterMap parseUrlBlock
  if fromBlocks.isEmpty then
    (findAllTagValues "<loc>".data "</loc>".data cs.length cs).map
      (fun v => { loc := String.mk (trimL v) })
  else fromBlocks

/-! ## Sitemap resolver (`parseSitemap` lines 158-204, `extractUrls` 121-153) -/

/-- `SitemapResult` from `types.ts`. -/
structure SitemapResult where
  urls : List SitemapUrl
  isIndex : Bool
  childSitemaps : Option (List String) := none
deriving Repr, DecidableEq

/-- Hostname equality of two URL strings, as `parseSitemap`'s filter
computes it (`new URL(loc).hostname === new URL(siteUrl).hostname`; an
unparseable `loc` is dropped). -/
def sameHostname (siteUrl loc : String) : Bool :=
  match hostnameOf loc.data, hostnameOf siteUrl.data with
  | some a, some b => a == b
  | _, _ => false

/-- The pure part of `parseSitemap` (after the fetch): if any extracted
location ends in `.xml` the whole document is a sitemap index; otherwise
the locations are filtered to the site's hostname. -/
def parseSitemapXml (siteUrl : String) (xml : String) : SitemapResult :=
  let urls := extractUrlsFromXml xml
  if urls.any (fun u => endsWithStr u.loc ".xml") then
    { urls := [],
      isIndex := true,
      childSitemaps := some ((urls.filter (fun u => endsWithStr u.loc ".xml")).map SitemapUrl.loc) }
  else
    { urls := urls.filter (fun u => sameHostname siteUrl u.loc), isIndex := false }

/-- `Map.set` keyed by `loc`: replace in place when the key exists
(keeping its position), otherwise append. -/
def upsertUrl (m : List SitemapUrl) (u : SitemapUrl) : List SitemapUrl :=
  if m.any (fun v => v.loc = u.loc) then
    m.map (fun v => if v.loc = u.loc then u else v)
  else m ++ [u]

/-- `extractUrls`: fetch and parse the root sitemap (`fetched` returns the
body of a successfully fetched URL, `none` models a fetch/network failure);
for an index, resolve every child, skipping children that fail to fetch,
merging their URL lists into a `Map` keyed by location; root failure is a
hard `NetworkError`. -/
def resolveSitemaps (siteUrl : String) (fetched : String → Option String)
    (rootUrl : String) : Except String (List SitemapUrl) :=
  match fetched rootUrl with
  | none => .error ("Failed to parse sitemap: " ++ rootUrl)
  | some xml =>
    let root := parseSitemapXml siteUrl xml
    match root.isIndex, root.childSitemaps with
    | true, some children =>
      .ok (children.foldl
        (fun acc c =>
          match fetched c with
          | none => acc
          | some cxml => ((parseSitemapXml siteUrl cxml).urls).foldl upsertUrl acc)
        [])
    | _, _ => .ok root.urls

/-! ## Multi-method extraction chain (`extractContentWithFallbacks`,
generate.ts lines 849-876)

The five strategies themselves run on a live DOM (JSDOM/Readability/
Turndown) and are modelled as their outcomes: `Except.error` is a thrown
exception, `Except.ok` a `{title, content}` result. The chain logic — strict
priority order, the 50-character acceptance test, the final placeholder —
is translated from the source. -/

/-- `{ title, content }` as returned by one extraction method. -/
structure ExtractRes where
  title : String
  content : String
deriving Repr, DecidableEq

/-- The acceptance test of the chain:
`result.content && result.content.trim().length > 50`. -/
def acceptedRes (r : ExtractRes) : Bool :=
  r.content != "" && decide ((trimL r.content.data).length > 50)

/-- Acceptance of a method outcome (a thrown method is never accepted). -/
def acceptedOutcome : Except String ExtractRes → Bool
  | .ok r => acceptedRes r
  | .error _ => false

/-- The `for (const method of extractionMethods)` loop: first accepted
outcome, skipping thrown methods. -/
def fallbackLoop : List (Except String ExtractRes) → Option ExtractRes
  | [] => none
  | m :: rest =>
    match m with
    | .ok r => if acceptedRes r then some r else fallbackLoop rest
    | .error _ => fallbackLoop rest

/-- A document, abstracted to its raw title, its URL, and the outcome of
each of the five extraction methods, listed in source order. -/
structure FallbackDoc where
  title : String
  url : String
  readability : Except String ExtractRes
  semanticSel : Except String ExtractRes
  contentSel : Except String ExtractRes
  metadataEx : Except String ExtractRes
  rawTextEx : Except String ExtractRes

/-- The `extractionMethods` array, in source order: readability, semantic
selectors, content-class selectors, metadata, raw text. -/
def methodList (d : FallbackDoc) : List (Except String ExtractRes) :=
  [d.readability, d.semanticSel, d.contentSel, d.metadataEx, d.rawTextEx]

/-- The placeholder returned when every method fails
(`document.title || url` plus the fixed sentence). -/
def noContentFallback (d : FallbackDoc) : ExtractRes :=
  { title := if d.title = "" then d.url else d.title,
    content := "No content could be extracted from this page." }

/-- `extractContentWithFallbacks`: total — it never throws. -/
def extractContentWithFallbacks (d : FallbackDoc) : ExtractRes :=
  match fallbackLoop (methodList d) with
  | some r => r
  | none => noContentFallback d

/-! ## Recursive link discovery (`discoverUrlsRecursively`, lines 288-348)

`oracle p` lists the anchor targets found on page `p`, already resolved to
absolute URLs (JSDOM's `href` resolution is not modelled); a page that fails
to fetch contributes `[]`. The worker pool inside `extractLinksFromPages`
only shuffles the order in which pages of one level are expanded; the model
expands them sequentially. -/

/-- `DiscoveredUrl` from `types.ts` (provenance fields `parentUrl` and
`discoveryMethod` are carried by the source but never read by the
pipeline; they are omitted). -/
structure DiscoveredUrl where
  url : String
  depth : Nat
  lastmod : Option String := none
deriving Repr, DecidableEq

/-- `Map.set` keyed by normalized URL (used for the seed URLs). -/
def discSet (m : List DiscoveredUrl) (d : DiscoveredUrl) : List DiscoveredUrl :=
  if m.any (fun e => e.url = d.url) then
    m.map (fun e => if e.url = d.url then d else e)
  else m ++ [d]

/-- `extractLinksFromPage`: normalize, keep internal links other than the
page itself, cap at `maxLinksPerPage`, tag with the discovery depth. -/
def extractLinksFromPage (o : GenOpts) (oracle : String → List String)
    (p : String) (depth : Nat) : List DiscoveredUrl :=
  ((((oracle p).map (normalizeUrl o.keepQueryParams)).filter
      (fun h => isInternalUrl o.siteUrl h && h != p)).take o.maxLinksPerPage).map
    (fun l => { url := l, depth })

/-- One depth round: expand every discovered URL of depth `depth`; a URL not
yet discovered and internal is appended at the new depth. The returned flag
is the `break` of the source's `if (currentLevelUrls.length === 0) break;`. -/
def discStep (o : GenOpts) (oracle : String → List String) (depth : Nat)
    (m : List DiscoveredUrl) : List DiscoveredUrl × Bool :=
  let current := (m.filter (fun e => e.depth = depth)).map DiscoveredUrl.url
  if current.isEmpty then (m, true)
  else
    let newUrls := current.flatMap (fun p => extractLinksFromPage o oracle p (depth + 1))
    (newUrls.foldl
      (fun acc nu =>
        let n := normalizeUrl o.keepQueryParams nu.url
        if !(acc.any (fun e => e.url = n)) && isInternalUrl o.siteUrl n then
          acc ++ [{ nu with url := n }]
        else acc)
      m, false)

/-- `discoverUrlsRecursively`: disabled → seed URLs at depth 0 unchanged;
enabled → seed with normalized sitemap URLs, then expand depth rounds
`0 .. maxRecursiveDepth - 1`, stopping early at an empty round. -/
def discoverUrlsRecursively (o : GenOpts) (oracle : String → List String)
    (initial : List SitemapUrl) : List DiscoveredUrl :=
  if !o.enableRecursiveDiscovery then
    initial.map (fun u => { url := u.loc, depth := 0, lastmod := u.lastmod })
  else
    let seeded := initial.foldl
      (fun m u =>
        discSet m
          { url := normalizeUrl o.keepQueryParams u.loc, depth := 0,
            lastmod := u.lastmod })
      []
    ((List.range o.maxRecursiveDepth).foldl
      (fun st d => if st.2 then st else discStep o oracle d st.1)
      (seeded, false)).1

/-! ## URL sorting (`sortUrls`, lines 1190-1208)

`Array.prototype.sort` (stable, ES2019) with the source's comparator;
modelled as a stable insertion sort. `new Date(lastmod)` comparison is
modelled as lexicographic comparison of the strings, which agrees with time
order on the ISO `YYYY-MM-DD...` stamps sitemaps carry. -/

/-- Lexicographic order on character lists (models `localeCompare <= 0` and
date-string comparison). -/
def lexLE : List Char → List Char → Bool
  | [], _ => true
  | _ :: _, [] => false
  | a :: as, b :: bs => if a = b then lexLE as bs else decide (a.toNat < b.toNat)

/-- The `sortUrls` comparator as a `≤` test: lastmod descending (most recent
first, entries with a lastmod before those without), ties by location. -/
def urlLE (a b : SitemapUrl) : Bool :=
  match a.lastmod, b.lastmod with
  | some la, some lb => if la = lb then lexLE a.loc.data b.loc.data else lexLE lb.data la.data
  | some _, none => true
  | none, some _ => false
  | none, none => lexLE a.loc.data b.loc.data

/-- Insert into a sorted list (before the first element it is `≤` to). -/
def insertSorted (le : SitemapUrl → SitemapUrl → Bool) (x : SitemapUrl) :
    List SitemapUrl → List SitemapUrl
  | [] => [x]
  | y :: ys => if le x y then x :: y :: ys else y :: insertSorted le x ys

/-- Stable sort (insertion sort). -/
def stableSort (le : SitemapUrl → SitemapUrl → Bool) : List SitemapUrl → List SitemapUrl
  | [] => []
  | x :: xs => insertSorted le x (stableSort le xs)

/-- `sortUrls`. -/
def sortUrls (urls : List SitemapUrl) : List SitemapUrl :=
  stableSort urlLE urls

/-! ## The `generate` pipeline after sitemap extraction (lines 61-91)

`filterUrls` → `discoverUrlsRecursively` → `sortUrls` → `crawlPages` →
`applyCharacterLimits`. File-system discovery results are never merged into
the page pipeline by the source, and `applyContentFiltering` is the
identity for runs without a content-filter configuration (the runs modelled
here), so both are omitted. The crawl schedule `List.range` stands for any
completion order: see the order-independence theorem for `crawlPagesSchedule`. -/

/-- End-to-end page pipeline for one run: returns the processed pages and
the `globalLimitReached` flag. -/
def runPipeline (o : GenOpts) (oracle : String → List String)
    (attempts : String → Nat → Except String HttpResponse)
    (extract : String → String → Except String ExtractedPage)
    (transform : String → String → String)
    (urls : List SitemapUrl) : List PageResult × Bool :=
  let filtered := filterUrls o urls
  let discovered := discoverUrlsRecursively o oracle filtered
  let sorted := sortUrls (discovered.map
    (fun d => { loc := d.url, lastmod := d.lastmod }))
  let crawled := crawlPagesSchedule
    (fun u => crawlSinglePage (attempts u.loc) extract transform u.loc u.lastmod)
    sorted (List.range sorted.length)
  applyCharacterLimits o crawled

/-! ## Concrete fixtures used by the counterexamples and witnesses below -/

/-- A successful HTML response. -/
def resp200 : HttpResponse :=
  { status := 200, statusText := "OK", contentType := "text/html; charset=utf-8",
    body := "<p>x</p>" }

/-- A 404 response. -/
def resp404 : HttpResponse :=
  { status := 404, statusText := "Not Found", contentType := "text/html",
    body := "" }

/-- A server that answers every attempt with 200. -/
def okAttempts : Nat → Except String HttpResponse := fun _ => .ok resp200

/-- A server that answers every attempt with 404. -/
def attempts404 : Nat → Except String HttpResponse := fun _ => .ok resp404

/-- A transport layer that fails every attempt. -/
def attemptsBoom : Nat → Except String HttpResponse := fun _ => .error "boom"

/-- A fixed extraction outcome. -/
def okExtract : String → String → Except String ExtractedPage :=
  fun _ _ => .ok { title := "T", content := "hello" }

/-- The default `contentTransformer` (the identity on content). -/
def idTransform : String → String → String := fun c _ => c

def optsC2 : GenOpts :=
  { siteUrl := "http://s", maxCharsPerPage := 1000, maxTotalChars := 100 }

def pageC2a : PageResult :=
  { url := "http://s/p1", title := "P1", content := String.mk (List.replicate 150 'a'),
    success := true, contentLength := 150, statusCode := some 200,
    truncated := false, originalLength := some 150 }

def pageC2b : PageResult :=
  { url := "http://s/p2", title := "P2", content := "x", success := true,
    contentLength := 1, statusCode := some 200, truncated := false,
    originalLength := some 1 }

def optsC3 : GenOpts :=
  { siteUrl := "http://s", maxCharsPerPage := 10, maxTotalChars := 1000 }

def pageC3 : PageResult :=
  { url := "http://s/p", title := "P", content := "12345678901", success := true,
    contentLength := 11, statusCode := some 200, truncated := false,
    originalLength := some 11 }

/-- A skipped-page fixture: the exact `PageResult` the crawl worker's catch
branch produces for a failed fetch — non-empty 25-character placeholder
content under `contentLength = 0`. -/
def pageC3b : PageResult :=
  crawlSinglePage attemptsBoom okExtract idTransform "http://s/x" none

/-- The crawl of one URL against the fixed 200-server. -/
def crawlFix : SitemapUrl → PageResult :=
  fun u => crawlSinglePage okAttempts okExtract idTransform u.loc u.lastmod

def urlsC6 : List SitemapUrl := [{ loc := "" }, { loc := "http://s/a" }]

def urlsW6 : List SitemapUrl := [{ loc := "http://s/a" }, { loc := "http://s/b" }]

def optsC5 : GenOpts :=
  { siteUrl := "http://s", maxPages := 1, enableRecursiveDiscovery := true,
    maxRecursiveDepth := 1, maxLinksPerPage := 50,
    maxCharsPerPage := 100, maxTotalChars := 1000 }

/-- Link oracle for the recursive-discovery run: the seed page links to two
further internal pages. -/
def oracleC5 : String → List String :=
  fun p => if p = "http://s/a" then ["http://s/b", "http://s/c"] else []

def urlsC5 : List SitemapUrl := [{ loc := "http://s/a" }]

def optsW5 : GenOpts :=
  { siteUrl := "http://s", maxPages := 1, enableRecursiveDiscovery := false,
    maxCharsPerPage := 100, maxTotalChars := 1000 }

def siteC7 : String := "http://s"

def xmlIndexC7 : String :=
  "<url><loc>http://s/a.xml</loc></url><url><loc>http://s/b.xml</loc></url>"

def xml1C7 : String := "<url><loc>http://s/p1</loc></url>"

def xml2C7 : String := "<url><loc>http://s/p2</loc></url>"

/-- Fetch oracle for the sitemap-index round trip. -/
def fetchedC7 : String → Option String := fun u =>
  if u = "http://s/sitemap.xml" then some xmlIndexC7
  else if u = "http://s/a.xml" then some xml1C7
  else if u = "http://s/b.xml" then some xml2C7
  else none

/-- 60 characters of content: passes the 50-character acceptance test. -/
def longContentA : String := String.mk (List.replicate 60 'a')

/-- Another accepted content, distinguishable from `longContentA`. -/
def longContentB : String := String.mk (List.replicate 60 'b')

/-- A document where readability throws, the semantic-selector method and
the content-class method both succeed: the semantic result must win. -/
def docW8 : FallbackDoc :=
  { title := "T", url := "http://s/d",
    readability := .error "Readability failed to parse content",
    semanticSel := .ok { title := "S", content := longContentA },
    contentSel := .ok { title := "C", content := longContentB },
    metadataEx := .error "Insufficient metadata content",
    rawTextEx := .ok { title := "R", content := "short" } }

/-- A document where every method fails or is too short. -/
def docW8b : FallbackDoc :=
  { title := "", url := "http://s/e",
    readability := .error "Readability failed to parse content",
    semanticSel := .error "No semantic content found",
    contentSel := .ok { title := "C", content := "tiny" },
    metadataEx := .error "Insufficient metadata content",
    rawTextEx := .error "Insufficient text content" }

def optsC10 : GenOpts := { siteUrl := "http://s", includePatterns := ["/docs"] }

def urlsC10 : List SitemapUrl := [{ loc := "http://s/blog" }]

/-! ## Helper lemmas -/

theorem sumContentLengths_nil : sumContentLengths [] = 0 := rfl

theorem sumContentLengths_cons (r : PageResult) (l : List PageResult) :
    sumContentLengths (r :: l) = r.content.length + sumContentLengths l := by
  simp [sumContentLengths]

/-- Behaviour of the `applyCharacterLimits` loop, for any starting total:
the output is a prefix of the input mapped through the per-page clamp, each
page was admitted while the running total was still under the budget, and
the flag is set exactly when some input page was cut off. -/
theorem applyCharLoop_spec (o : GenOpts) (pages : List PageResult) :
    ∀ total : Nat,
      (applyCharLoop o pages total).1 =
        (pages.take (applyCharLoop o pages total).1.length).map (perPageTruncate o) ∧
      (∀ i, i < (applyCharLoop o pages total).1.length →
        total + sumContentLengths ((applyCharLoop o pages total).1.take i)
          < o.maxTotalChars) ∧
      ((applyCharLoop o pages total).2 = true ↔
        (applyCharLoop o pages total).1.length < pages.length) := by
  induction pages with
  | nil =>
    intro total
    simp [applyCharLoop]
  | cons r rest ih =>
    intro total
    by_cases h : total ≥ o.maxTotalChars
    · simp [applyCharLoop, h]
    · obtain ⟨ih1, ih2, ih3⟩ := ih (total + (perPageTruncate o r).content.length)
      have hloop :
          applyCharLoop o (r :: rest) total =
            (perPageTruncate o r ::
              (applyCharLoop o rest (total + (perPageTruncate o r).content.length)).1,
             (applyCharLoop o rest (total + (perPageTruncate o r).content.length)).2) := by
        simp [applyCharLoop, h]
      rw [hloop]
      refine ⟨?_, ?_, ?_⟩
      · simp only [List.length_cons, List.take_succ_cons, List.map_cons]
        exact congrArg _ ih1
      · intro i hi
        match i with
        | 0 =>
          simp only [List.take_zero, sumContentLengths_nil, Nat.add_zero]
          omega
        | j + 1 =>
          simp only [List.length_cons, Nat.add_lt_add_iff_right] at hi
          simp only [List.take_succ_cons, sumContentLengths_cons]
          have := ih2 j hi
          omega
      · simp only [List.length_cons, Nat.add_lt_add_iff_right]
        exact ih3

theorem filterUrls_length_le (o : GenOpts) (urls : List SitemapUrl) :
    (filterUrls o urls).length ≤ max o.maxPages 1 := by
  unfold filterUrls
  by_cases h : (filterUrlsCore o urls).isEmpty
  · simp [h]
  · simp only [h, if_neg, Bool.false_eq_true, not_false_eq_true, if_false]
    have : (filterUrlsCore o urls).length ≤ o.maxPages := by
      unfold filterUrlsCore
      exact List.length_take_le _ _
    omega

/-- `applyCharLoop_spec` restated for `applyCharacterLimits` itself. -/
theorem applyCharacterLimits_spec (o : GenOpts) (pages : List PageResult) :
    (applyCharacterLimits o pages).1 =
      ((pages.take (applyCharacterLimits o pages).1.length).map (perPageTruncate o)) ∧
    (∀ i, i < (applyCharacterLimits o pages).1.length →
      sumContentLengths ((applyCharacterLimits o pages).1.take i) < o.maxTotalChars) ∧
    ((applyCharacterLimits o pages).2 = true ↔
      (applyCharacterLimits o pages).1.length < pages.length) := by
  have h := applyCharLoop_spec o pages 0
  simp only [applyCharacterLimits]
  exact ⟨h.1, fun i hi => by have := h.2.1 i hi; omega, h.2.2⟩

/-- The page the assembler emits at position `i` is the per-page clamp of
the input page at position `i`. -/
theorem applyCharacterLimits_getElem (o : GenOpts) (pages : List PageResult)
    (i : Nat) (hi : i < (applyCharacterLimits o pages).1.length)
    (hp : i < pages.length) :
    (applyCharacterLimits o pages).1[i] = perPageTruncate o pages[i] := by
  have h1 := (applyCharacterLimits_spec o pages).1
  have hi2 : i < ((pages.take (applyCharacterLimits o pages).1.length).map
      (perPageTruncate o)).length := by
    rw [← h1]; exact hi
  calc (applyCharacterLimits o pages).1[i]
      = ((pages.take (applyCharacterLimits o pages).1.length).map
          (perPageTruncate o))[i] := List.get_of_eq h1 ⟨i, hi⟩
    _ = perPageTruncate o pages[i] := by
        rw [List.getElem_map, List.getElem_take]

/-! ## C2 — global character budget -/

set_option maxRecDepth 20000 in
/-- C2 counterexample: with `maxTotalChars = 100` and a first page of 150
characters, `globalLimitReached` is set, yet the included content sums to
150 > 100 — the sum of the included pages' content lengths exceeds
`maxTotalChars`, contradicting the claim as stated. -/
theorem c2_counterexample :
    (applyCharacterLimits optsC2 [pageC2a, pageC2b]).2 = true ∧
    optsC2.maxTotalChars <
      sumContentLengths (applyCharacterLimits optsC2 [pageC2a, pageC2b]).1 := by
  decide

/-- C2 (amended): the assembler emits a prefix of the (per-page clamped)
pages, in order and each in full; a page is included exactly while the
running total of already-included content is still strictly below
`maxTotalChars` (so once `globalLimitReached` is set the final sum may
exceed `maxTotalChars` by part of the last included page, while the sum of
all included pages but the last stays below the budget); the flag is set
exactly when some input page was cut off. -/
theorem c2_global_budget_amended (o : GenOpts) (pages : List PageResult) :
    (applyCharacterLimits o pages).1 =
      ((pages.take (applyCharacterLimits o pages).1.length).map (perPageTruncate o)) ∧
    (∀ i, i < (applyCharacterLimits o pages).1.length →
      sumContentLengths ((applyCharacterLimits o pages).1.take i) < o.maxTotalChars) ∧
    ((applyCharacterLimits o pages).2 = true ↔
      (applyCharacterLimits o pages).1.length < pages.length) :=
  applyCharacterLimits_spec o pages

set_option maxRecDepth 20000 in
/-- Witness for `c2_global_budget_amended` at a concrete run. -/
theorem c2_witness :
    (applyCharacterLimits optsC2 [pageC2a, pageC2b]).1 =
      (([pageC2a, pageC2b].take
          (applyCharacterLimits optsC2 [pageC2a, pageC2b]).1.length).map
        (perPageTruncate optsC2)) ∧
    sumContentLengths ((applyCharacterLimits optsC2 [pageC2a, pageC2b]).1.take 0)
      < optsC2.maxTotalChars ∧
    ((applyCharacterLimits optsC2 [pageC2a, pageC2b]).2 = true ↔
      (applyCharacterLimits optsC2 [pageC2a, pageC2b]).1.length < 2) :=
  ⟨(c2_global_budget_amended optsC2 [pageC2a, pageC2b]).1,
   (c2_global_budget_amended optsC2 [pageC2a, pageC2b]).2.1 0 (by decide),
   (c2_global_budget_amended optsC2 [pageC2a, pageC2b]).2.2⟩

/-! ## C3 — per-page truncation bookkeeping -/

/-- Branch analysis of `crawlSinglePage`: on success `contentLength` is the
length of the extracted (transformed) content; on every skip branch it is
the constant 0 while `content` holds the diagnostic placeholder. -/
theorem crawlSinglePage_contentLength
    (attempts : Nat → Except String HttpResponse)
    (extract : String → String → Except String ExtractedPage)
    (transform : String → String → String)
    (url : String) (lastmod : Option String) :
    ((crawlSinglePage attempts extract transform url lastmod).success = true →
      (crawlSinglePage attempts extract transform url lastmod).contentLength =
        (crawlSinglePage attempts extract transform url lastmod).content.length) ∧
    ((crawlSinglePage attempts extract transform url lastmod).success = false →
      (crawlSinglePage attempts extract transform url lastmod).contentLength = 0) := by
  unfold crawlSinglePage
  split
  · exact ⟨fun h => absurd h (by simp), fun _ => rfl⟩
  · split
    · exact ⟨fun h => absurd h (by simp), fun _ => rfl⟩
    · split
      · exact ⟨fun h => absurd h (by simp), fun _ => rfl⟩
      · split
        · exact ⟨fun h => absurd h (by simp), fun _ => rfl⟩
        · split
          · exact ⟨fun h => absurd h (by simp), fun _ => rfl⟩
          · exact ⟨fun _ => rfl, fun h => absurd h (by simp)⟩

/-- Every `crawlSinglePage` result — successful or skipped — leaves
`truncated = false` and satisfies `contentLength ≤ content.length`
(successful pages with equality, skipped pages with `contentLength = 0`
under a non-empty placeholder). -/
theorem crawlSinglePage_wellformed
    (attempts : Nat → Except String HttpResponse)
    (extract : String → String → Except String ExtractedPage)
    (transform : String → String → String)
    (url : String) (lastmod : Option String) :
    (crawlSinglePage attempts extract transform url lastmod).truncated = false ∧
    (crawlSinglePage attempts extract transform url lastmod).contentLength ≤
      (crawlSinglePage attempts extract transform url lastmod).content.length := by
  unfold crawlSinglePage
  split
  · exact ⟨rfl, Nat.zero_le _⟩
  · split
    · exact ⟨rfl, Nat.zero_le _⟩
    · split
      · exact ⟨rfl, Nat.zero_le _⟩
      · split
        · exact ⟨rfl, Nat.zero_le _⟩
        · split
          · exact ⟨rfl, Nat.zero_le _⟩
          · exact ⟨rfl, Nat.le_refl _⟩

set_option maxRecDepth 20000 in
/-- C3 counterexample: an 11-character successfully-crawled page clamped at
10 characters has `truncated = true` but `originalLength = some 11` and
`contentLength = 11`: `originalLength > contentLength` fails on the final
processed set (the `all` below checks the claimed strict inequality for
every truncated page and comes out `false`). -/
theorem c3_counterexample :
    ((applyCharacterLimits optsC3 [pageC3]).1.all
      (fun q => !q.truncated || decide (q.contentLength < q.originalLength.getD 0)))
      = false := by
  decide

/-- C3 (amended): for every page in the final processed set — the crawl
worker emits every page, successful or skipped, with `truncated = false`
and `contentLength ≤ content.length` (second conjunct), which is all the
first conjunct assumes — `truncated = true` holds exactly when the page's
content was clamped to `maxCharsPerPage` (with the marker appended), and
whenever `truncated = true`, `originalLength` records the pre-truncation
content length and `originalLength ≥ contentLength` holds (truncation
never updates `contentLength`); the strict inequality is NOT general: for
pages whose `contentLength` equals their content length (successful
crawls) it degenerates to equality. -/
theorem c3_truncation_amended (o : GenOpts) (pages : List PageResult)
    (hwf : ∀ r ∈ pages, r.truncated = false ∧ r.contentLength ≤ r.content.length) :
    (∀ i, ∀ hi : i < (applyCharacterLimits o pages).1.length,
     ∀ hp : i < pages.length,
      (((applyCharacterLimits o pages).1[i]).truncated = true ↔
        pages[i].content.length > o.maxCharsPerPage) ∧
      (((applyCharacterLimits o pages).1[i]).truncated = true →
        ((applyCharacterLimits o pages).1[i]).content =
          String.mk (pages[i].content.data.take o.maxCharsPerPage)
            ++ truncMarker o.maxCharsPerPage ∧
        ((applyCharacterLimits o pages).1[i]).originalLength =
          some pages[i].content.length ∧
        ((applyCharacterLimits o pages).1[i]).contentLength ≤
          pages[i].content.length ∧
        (pages[i].contentLength = pages[i].content.length →
          ((applyCharacterLimits o pages).1[i]).originalLength =
            some (((applyCharacterLimits o pages).1[i]).contentLength)))) ∧
    ∀ (attempts : Nat → Except String HttpResponse)
      (extract : String → String → Except String ExtractedPage)
      (transform : String → String → String)
      (url : String) (lastmod : Option String),
      (crawlSinglePage attempts extract transform url lastmod).truncated = false ∧
      (crawlSinglePage attempts extract transform url lastmod).contentLength ≤
        (crawlSinglePage attempts extract transform url lastmod).content.length := by
  constructor
  · intro i hi hp
    rw [applyCharacterLimits_getElem o pages i hi hp]
    obtain ⟨hwf1, hwf2⟩ := hwf pages[i] (List.getElem_mem hp)
    unfold perPageTruncate
    by_cases h : pages[i].content.length > o.maxCharsPerPage
    · rw [if_pos h]
      refine ⟨⟨fun _ => h, fun _ => rfl⟩, fun _ => ⟨rfl, rfl, hwf2, ?_⟩⟩
      intro he
      show some pages[i].content.length = some pages[i].contentLength
      rw [he]
    · rw [if_neg h]
      constructor
      · rw [hwf1]
        simp [h]
      · intro hfalse
        rw [hwf1] at hfalse
        exact absurd hfalse (by simp)
  · intro attempts extract transform url lastmod
    exact crawlSinglePage_wellformed attempts extract transform url lastmod

set_option maxRecDepth 20000 in
/-- Witness for `c3_truncation_amended` at a concrete run containing both a
successful clamped page (equality case: `originalLength = some
contentLength`) and a skipped clamped page (truncation detected on its
25-character placeholder), plus the crawl-output coverage conjunct at a
failing fetch. -/
theorem c3_witness :
    ((applyCharacterLimits optsC3 [pageC3, pageC3b]).1.get ⟨0, by decide⟩).originalLength =
      some (((applyCharacterLimits optsC3 [pageC3, pageC3b]).1.get ⟨0, by decide⟩).contentLength) ∧
    (((applyCharacterLimits optsC3 [pageC3, pageC3b]).1.get ⟨1, by decide⟩).truncated = true ↔
      pageC3b.content.length > optsC3.maxCharsPerPage) ∧
    (crawlSinglePage attemptsBoom okExtract idTransform "http://s/x" none).truncated
      = false := by
  refine ⟨?_, ?_, ?_⟩
  · exact ((((c3_truncation_amended optsC3 [pageC3, pageC3b] (by decide)).1
      0 (by decide) (by decide)).2 (by decide)).2.2.2) (by decide)
  · exact ((c3_truncation_amended optsC3 [pageC3, pageC3b] (by decide)).1
      1 (by decide) (by decide)).1
  · exact ((c3_truncation_amended optsC3 [pageC3, pageC3b] (by decide)).2
      attemptsBoom okExtract idTransform "http://s/x" none).1

/-! ## C4 — `contentLength` vs current `content` -/

/-- C4 counterexample: a page whose fetch fails carries the non-empty
diagnostic content `"(Fetch/parse error: boom)"` but `contentLength = 0` —
`contentLength` does not equal the length of the current `content` field
for this member of the processed set. -/
theorem c4_counterexample :
    (crawlSinglePage attemptsBoom okExtract idTransform "http://s/x" none).contentLength
        = 0 ∧
    (crawlSinglePage attemptsBoom okExtract idTransform "http://s/x" none).contentLength
      ≠ (crawlSinglePage attemptsBoom okExtract idTransform "http://s/x" none).content.length := by
  decide

/-- C4 (amended): `contentLength` equals the current content length only on
successful crawls; every skipped page (`success = false`) carries
`contentLength = 0` regardless of its non-empty placeholder content; and
the per-page truncation of the assembler never updates `contentLength`, so
a truncated page keeps its pre-truncation length. -/
theorem c4_contentLength_amended
    (attempts : Nat → Except String HttpResponse)
    (extract : String → String → Except String ExtractedPage)
    (transform : String → String → String)
    (url : String) (lastmod : Option String) :
    ((crawlSinglePage attempts extract transform url lastmod).success = true →
      (crawlSinglePage attempts extract transform url lastmod).contentLength =
        (crawlSinglePage attempts extract transform url lastmod).content.length) ∧
    ((crawlSinglePage attempts extract transform url lastmod).success = false →
      (crawlSinglePage attempts extract transform url lastmod).contentLength = 0) ∧
    (∀ (o : GenOpts) (p : PageResult),
      (perPageTruncate o p).contentLength = p.contentLength) := by
  obtain ⟨h1, h2⟩ := crawlSinglePage_contentLength attempts extract transform url lastmod
  refine ⟨h1, h2, ?_⟩
  intro o p
  unfold perPageTruncate
  by_cases h : p.content.length > o.maxCharsPerPage
  · rw [if_pos h]
  · rw [if_neg h]

/-- Witness for `c4_contentLength_amended`: a successful crawl, a failed
crawl, and a concrete truncation. -/
theorem c4_witness :
    (crawlSinglePage okAttempts okExtract idTransform "http://s/a" none).contentLength =
      (crawlSinglePage okAttempts okExtract idTransform "http://s/a" none).content.length ∧
    (crawlSinglePage attemptsBoom okExtract idTransform "http://s/a" none).contentLength = 0 ∧
    (perPageTruncate optsC3 pageC3).contentLength = pageC3.contentLength :=
  ⟨(c4_contentLength_amended okAttempts okExtract idTransform "http://s/a" none).1
      (by decide),
   (c4_contentLength_amended attemptsBoom okExtract idTransform "http://s/a" none).2.1
      (by decide),
   (c4_contentLength_amended okAttempts okExtract idTransform "http://s/a" none).2.2
      optsC3 pageC3⟩

/-! ## C10 — empty-filter fallback to the site URL -/

/-- C10: `filterUrls` never returns an empty list: when include/exclude
filtering plus the `maxPages` cap leave nothing, the single-element list
holding the configured site URL is substituted; otherwise the filtered list
passes through unchanged. -/
theorem c10_fallback_site_url (o : GenOpts) (urls : List SitemapUrl) :
    1 ≤ (filterUrls o urls).length ∧
    (filterUrlsCore o urls = [] → filterUrls o urls = [{ loc := o.siteUrl }]) ∧
    (filterUrlsCore o urls ≠ [] → filterUrls o urls = filterUrlsCore o urls) := by
  unfold filterUrls
  by_cases h : (filterUrlsCore o urls).isEmpty
  · rw [if_pos h]
    rw [List.isEmpty_iff] at h
    exact ⟨by simp, fun _ => rfl, fun hne => absurd h hne⟩
  · rw [if_neg h]
    rw [List.isEmpty_iff] at h
    refine ⟨?_, fun heq => absurd heq h, fun _ => rfl⟩
    have := List.length_pos.mpr h
    omega

/-- Witness for `c10_fallback_site_url`: the include pattern `/docs`
matches nothing in the sitemap, so the crawl stage still receives the bare
site URL. -/
theorem c10_witness :
    filterUrls optsC10 urlsC10 = [{ loc := optsC10.siteUrl }] :=
  (c10_fallback_site_url optsC10 urlsC10).2.1 (by decide)

/-! ## C1 — non-2xx responses and the retry layer -/

/-- C1 (evaluation at the failing input): against a server that answers
every attempt with `404 Not Found`, `fetchWithRetry` does NOT return the
response as successful transport — it converts it to a thrown
`GeneratorError "HTTP 404: Not Found"` and retries, performing all 3
attempts before surfacing the error; consequently `crawlSinglePage` lands
in its `catch` block and produces `skipReason = "parse-error"` (with the
HTTP message as `error` and `statusCode = 0`), never the claimed
`"http-404"`. -/
theorem c1_non2xx_is_retried_eval :
    fetchWithRetry attempts404 3 = .error "HTTP 404: Not Found" ∧
    fetchAttemptsUsed attempts404 3 = 3 ∧
    (crawlSinglePage attempts404 okExtract idTransform "http://s/x" none).skipReason
      = some "parse-error" ∧
    (crawlSinglePage attempts404 okExtract idTransform "http://s/x" none).error
      = some "HTTP 404: Not Found" ∧
    (crawlSinglePage attempts404 okExtract idTransform "http://s/x" none).statusCode
      = some 0 := by
  decide

/-! ## C8 — multi-method extraction fallback chain -/

/-- If no outcome in the list is accepted, the loop yields nothing. -/
theorem fallbackLoop_of_all_rejected (l : List (Except String ExtractRes))
    (h : ∀ m ∈ l, acceptedOutcome m = false) : fallbackLoop l = none := by
  induction l with
  | nil => rfl
  | cons m rest ih =>
    have hm := h m (List.mem_cons_self m rest)
    have hrest := fun m hm => h m (List.mem_cons_of_mem _ hm)
    match m with
    | .ok r =>
      simp only [acceptedOutcome] at hm
      simp only [fallbackLoop, hm, Bool.false_eq_true, if_false]
      exact ih hrest
    | .error e =>
      simp only [fallbackLoop]
      exact ih hrest

/-- If the outcome at position `i` is an accepted result and every earlier
outcome is rejected, the loop yields exactly that result. -/
theorem fallbackLoop_first_accepted (l : List (Except String ExtractRes)) :
    ∀ i, ∀ hi : i < l.length, ∀ r : ExtractRes,
      l.get ⟨i, hi⟩ = .ok r → acceptedRes r = true →
      (∀ j, ∀ hj : j < i, acceptedOutcome (l.get ⟨j, Nat.lt_trans hj hi⟩) = false) →
      fallbackLoop l = some r := by
  induction l with
  | nil => intro i hi; exact absurd hi (by simp)
  | cons m rest ih =>
    intro i hi r hget hacc hprev
    match i with
    | 0 =>
      simp only [List.get] at hget
      subst hget
      simp only [fallbackLoop, hacc, if_true]
    | k + 1 =>
      have h0 := hprev 0 (Nat.succ_pos k)
      simp only [List.get] at h0 hget
      have htail : fallbackLoop (m :: rest) = fallbackLoop rest := by
        match m with
        | .ok r0 =>
          simp only [acceptedOutcome] at h0
          simp only [fallbackLoop, h0, Bool.false_eq_true, if_false]
        | .error e => rfl
      rw [htail]
      exact ih k (Nat.lt_of_succ_lt_succ hi) r hget hacc
        (fun j hj => hprev (j + 1) (Nat.succ_lt_succ hj))

/-- C8: the fallback chain tries readability, semantic selectors,
content-class selectors, metadata, raw text, in that order; the first
outcome whose content is non-empty with trimmed length above 50 characters
wins (earlier methods take precedence); if every method throws or falls
short, the fixed placeholder with the document's raw title (or URL) is
returned — `extractContentWithFallbacks` is total, it never throws. -/
theorem c8_fallback_priority (d : FallbackDoc) :
    ((∀ m ∈ methodList d, acceptedOutcome m = false) →
      extractContentWithFallbacks d = noContentFallback d) ∧
    (∀ i, ∀ hi : i < (methodList d).length, ∀ r : ExtractRes,
      (methodList d).get ⟨i, hi⟩ = .ok r → acceptedRes r = true →
      (∀ j, ∀ hj : j < i,
        acceptedOutcome ((methodList d).get ⟨j, Nat.lt_trans hj hi⟩) = false) →
      extractContentWithFallbacks d = r) := by
  constructor
  · intro h
    unfold extractContentWithFallbacks
    rw [fallbackLoop_of_all_rejected (methodList d) h]
  · intro i hi r hget hacc hprev
    unfold extractContentWithFallbacks
    rw [fallbackLoop_first_accepted (methodList d) i hi r hget hacc hprev]

/-- Witness for `c8_fallback_priority`: readability throws, both the
semantic-selector and the content-class method would succeed — the
semantic result wins; and on a document where everything fails the fixed
placeholder (with the URL standing in for the empty title) is returned. -/
theorem c8_witness :
    extractContentWithFallbacks docW8 = { title := "S", content := longContentA } ∧
    extractContentWithFallbacks docW8b = noContentFallback docW8b := by
  have hi : (1 : Nat) < (methodList docW8).length := by decide
  constructor
  · refine (c8_fallback_priority docW8).2 1 hi
      { title := "S", content := longContentA } rfl (by decide) ?_
    intro j hj
    have h0 : j = 0 := Nat.lt_one_iff.mp hj
    subst h0
    rfl
  · exact (c8_fallback_priority docW8b).1 (by decide)

/-! ## C6 — worker pool ordering -/

theorem crawlWriteStep_length (crawl : SitemapUrl → PageResult)
    (urls : List SitemapUrl) (acc : List (Option PageResult)) (i : Nat) :
    (crawlWriteStep crawl urls acc i).length = acc.length := by
  unfold crawlWriteStep
  rcases h : urls[i]? with _ | u
  · rfl
  · dsimp only
    by_cases hl : u.loc = ""
    · rw [if_pos hl]
    · rw [if_neg hl]
      exact List.length_set acc i _

theorem crawlWrites_foldl_length (crawl : SitemapUrl → PageResult)
    (urls : List SitemapUrl) :
    ∀ (order : List Nat) (acc : List (Option PageResult)),
      (order.foldl (crawlWriteStep crawl urls) acc).length = acc.length := by
  intro order
  induction order with
  | nil => intro acc; rfl
  | cons i rest ih =>
    intro acc
    calc (List.foldl (crawlWriteStep crawl urls) acc (i :: rest)).length
        = (List.foldl (crawlWriteStep crawl urls) (crawlWriteStep crawl urls acc i) rest).length := rfl
      _ = (crawlWriteStep crawl urls acc i).length := ih _
      _ = acc.length := crawlWriteStep_length crawl urls acc i

/-- Slot `j` of the results array after the writes in `order`: it holds the
crawl result of the `j`-th URL exactly when some worker wrote it (`j` was
claimed in `order` and the URL is nonempty); otherwise the slot is
untouched. -/
theorem crawlWrites_foldl_getElem (crawl : SitemapUrl → PageResult)
    (urls : List SitemapUrl) :
    ∀ (order : List Nat) (acc : List (Option PageResult)),
      acc.length = urls.length → ∀ j, ∀ hj : j < urls.length,
      (order.foldl (crawlWriteStep crawl urls) acc)[j]? =
        if j ∈ order ∧ urls[j].loc ≠ "" then some (some (crawl urls[j]))
        else acc[j]? := by
  intro order
  induction order with
  | nil =>
    intro acc hacc j hj
    simp
  | cons i rest ih =>
    intro acc hacc j hj
    have hstep : (List.foldl (crawlWriteStep crawl urls) acc (i :: rest)) =
        List.foldl (crawlWriteStep crawl urls) (crawlWriteStep crawl urls acc i) rest := rfl
    rw [hstep]
    have hacc' : (crawlWriteStep crawl urls acc i).length = urls.length := by
      rw [crawlWriteStep_length]; exact hacc
    rw [ih (crawlWriteStep crawl urls acc i) hacc' j hj]
    by_cases hjr : j ∈ rest ∧ urls[j].loc ≠ ""
    · rw [if_pos hjr, if_pos ⟨List.mem_cons_of_mem i hjr.1, hjr.2⟩]
    · rw [if_neg hjr]
      by_cases hij : j = i
      · subst hij
        unfold crawlWriteStep
        rw [List.getElem?_eq_getElem hj]
        dsimp only
        by_cases hl : urls[j].loc = ""
        · rw [if_pos hl, if_neg (by simp [hl])]
        · have hjnr : j ∉ rest := fun hmem => hjr ⟨hmem, hl⟩
          rw [if_neg hl, List.getElem?_set_self (by omega),
            if_pos ⟨List.mem_cons_self j rest, hl⟩]
      · have hstep2 : (crawlWriteStep crawl urls acc i)[j]? = acc[j]? := by
          unfold crawlWriteStep
          split
          · split
            · rfl
            · exact List.getElem?_set_ne (fun he => hij he.symm)
          · rfl
        rw [hstep2]
        have : ¬(j ∈ i :: rest ∧ urls[j].loc ≠ "") := by
          rintro ⟨hmem, hl⟩
          rcases List.mem_cons.mp hmem with he | hr
          · exact hij he
          · exact hjr ⟨hr, hl⟩
        rw [if_neg this]

theorem reduceOption_map_some {α β : Type} (f : α → β) (l : List α) :
    (l.map (fun x => some (f x))).reduceOption = l.map f := by
  induction l with
  | nil => rfl
  | cons x xs ih =>
    simp only [List.map_cons, List.reduceOption_cons_of_some, ih]

/-- C6 (amended): for any completion order in which every index gets
claimed (any run with at least one worker), and any input list whose `loc`
fields are all nonempty, the pool's output is exactly the input list mapped
through the single-page crawl — the result at index `i` is the `PageResult`
for the `i`-th input URL, each URL processed exactly once, independent of
write order; entries with an empty `loc` would instead be skipped and
filtered out of the result. -/
theorem c6_order_amended (crawl : SitemapUrl → PageResult)
    (urls : List SitemapUrl) (order : List Nat)
    (hcover : ∀ i, i < urls.length → i ∈ order)
    (hloc : ∀ u ∈ urls, u.loc ≠ "") :
    crawlPagesSchedule crawl urls order = urls.map crawl := by
  unfold crawlPagesSchedule crawlWrites
  have hwrites : order.foldl (crawlWriteStep crawl urls) (List.replicate urls.length none) =
      urls.map (fun u => some (crawl u)) := by
    apply List.ext_getElem?
    intro j
    by_cases hj : j < urls.length
    · rw [crawlWrites_foldl_getElem crawl urls order _ (List.length_replicate _ _) j hj]
      rw [if_pos ⟨hcover j hj, hloc urls[j] (List.getElem_mem hj)⟩]
      rw [List.getElem?_map, List.getElem?_eq_getElem hj]
      rfl
    · rw [List.getElem?_eq_none, List.getElem?_eq_none]
      · rw [List.length_map]; omega
      · rw [crawlWrites_foldl_length, List.length_replicate]; omega
  rw [hwrites, reduceOption_map_some]

/-- C6 counterexample: with an input list whose first entry has an empty
`loc`, the pool (here: one worker claiming indices in order) emits only one
result, and the result at index 0 is the `PageResult` for the SECOND input
URL — the claimed index correspondence fails for this input list. -/
theorem c6_counterexample :
    (crawlPagesSchedule crawlFix urlsC6 [0, 1]).length = 1 ∧
    (crawlPagesSchedule crawlFix urlsC6 [0, 1]).map PageResult.url = ["http://s/a"] := by
  decide

/-- Witness for `c6_order_amended`: two URLs whose writes complete in
reverse order still come out in input order. -/
theorem c6_witness :
    crawlPagesSchedule crawlFix urlsW6 [1, 0] = urlsW6.map crawlFix := by
  apply c6_order_amended crawlFix urlsW6 [1, 0]
  · intro i hi
    have hlt : i < 2 := by
      have : urlsW6.length = 2 := by decide
      omega
    interval_cases i
    · simp
    · simp
  · decide

/-! ## C7 — sitemap index detection and child-set union -/

/-- Folding `Map.set` insertions of fresh, pairwise-distinct locations onto
`m` appends them. -/
theorem foldl_upsertUrl_fresh :
    ∀ (l m : List SitemapUrl),
      (∀ u ∈ l, ∀ v ∈ m, u.loc ≠ v.loc) → (l.map SitemapUrl.loc).Nodup →
      l.foldl upsertUrl m = m ++ l := by
  intro l
  induction l with
  | nil => intro m _ _; exact (List.append_nil m).symm
  | cons u rest ih =>
    intro m hfresh hnd
    have hany : (m.any (fun v => v.loc = u.loc)) = false := by
      rw [List.any_eq_false]
      intro v hv
      simp only [decide_eq_true_eq]
      exact fun he => hfresh u (List.mem_cons_self u rest) v hv he.symm
    have hstep : upsertUrl m u = m ++ [u] := by
      unfold upsertUrl
      rw [hany]
      simp
    have hnotin : ∀ w ∈ rest, w.loc ≠ u.loc := by
      intro w hw he
      have : u.loc ∈ rest.map SitemapUrl.loc := by
        rw [← he]; exact List.mem_map_of_mem SitemapUrl.loc hw
      exact (List.nodup_cons.mp (by simpa using hnd)).1 this
    have hfresh' : ∀ w ∈ rest, ∀ v ∈ m ++ [u], w.loc ≠ v.loc := by
      intro w hw v hv
      rcases List.mem_append.mp hv with hvm | hvu
      · exact hfresh w (List.mem_cons_of_mem u hw) v hvm
      · have : v = u := by simpa using hvu
        subst this
        exact hnotin w hw
    calc (u :: rest).foldl upsertUrl m = rest.foldl upsertUrl (upsertUrl m u) := rfl
      _ = rest.foldl upsertUrl (m ++ [u]) := by rw [hstep]
      _ = (m ++ [u]) ++ rest := ih (m ++ [u]) hfresh' (List.nodup_cons.mp (by simpa using hnd)).2
      _ = m ++ u :: rest := by simp

/-- When no extracted location ends in `.xml` and every location shares the
site's hostname, `parseSitemap` returns all extracted URLs unfiltered. -/
theorem parseSitemapXml_not_index (siteUrl xml : String)
    (h : ∀ u ∈ extractUrlsFromXml xml,
      endsWithStr u.loc ".xml" = false ∧ sameHostname siteUrl u.loc = true) :
    parseSitemapXml siteUrl xml =
      { urls := extractUrlsFromXml xml, isIndex := false } := by
  have hany : ((extractUrlsFromXml xml).any
      (fun u => endsWithStr u.loc ".xml")) = false := by
    rw [List.any_eq_false]
    intro u hu
    simp [(h u hu).1]
  simp only [parseSitemapXml, hany, Bool.false_eq_true, if_false]
  rw [List.filter_eq_self.mpr (fun a ha => (h a ha).2)]

/-- C7: (1) if any location extracted from a fetched sitemap document ends
in `.xml`, the whole document is a sitemap index — no page URLs, only the
`.xml` locations as `childSitemaps`; (2) resolving an index whose two
`.xml` children carry disjoint, duplicate-free `<url>` sets (of site-host,
non-`.xml` page locations) yields exactly the union of both children's
locations, deduplicated by location. -/
theorem c7_sitemap_index_union
    (siteUrl xml : String) (fetched : String → Option String)
    (rootUrl rootXml c1 c2 xml1 xml2 : String) :
    ((extractUrlsFromXml xml).any (fun u => endsWithStr u.loc ".xml") = true →
      parseSitemapXml siteUrl xml =
        { urls := [], isIndex := true,
          childSitemaps := some (((extractUrlsFromXml xml).filter
            (fun u => endsWithStr u.loc ".xml")).map SitemapUrl.loc) }) ∧
    (fetched rootUrl = some rootXml →
      parseSitemapXml siteUrl rootXml =
        { urls := [], isIndex := true, childSitemaps := some [c1, c2] } →
      fetched c1 = some xml1 → fetched c2 = some xml2 →
      (∀ u ∈ extractUrlsFromXml xml1 ++ extractUrlsFromXml xml2,
        endsWithStr u.loc ".xml" = false ∧ sameHostname siteUrl u.loc = true) →
      (∀ a ∈ extractUrlsFromXml xml1, ∀ b ∈ extractUrlsFromXml xml2,
        a.loc ≠ b.loc) →
      ((extractUrlsFromXml xml1).map SitemapUrl.loc).Nodup →
      ((extractUrlsFromXml xml2).map SitemapUrl.loc).Nodup →
      resolveSitemaps siteUrl fetched rootUrl =
        .ok (extractUrlsFromXml xml1 ++ extractUrlsFromXml xml2)) := by
  constructor
  · intro h
    unfold parseSitemapXml
    rw [if_pos h]
  · intro hroot hidx h1 h2 hsame hdisj hnd1 hnd2
    unfold resolveSitemaps
    rw [hroot]
    dsimp only
    rw [hidx]
    dsimp only
    have hp1 : parseSitemapXml siteUrl xml1 =
        { urls := extractUrlsFromXml xml1, isIndex := false } :=
      parseSitemapXml_not_index siteUrl xml1
        (fun u hu => hsame u (List.mem_append_left _ hu))
    have hp2 : parseSitemapXml siteUrl xml2 =
        { urls := extractUrlsFromXml xml2, isIndex := false } :=
      parseSitemapXml_not_index siteUrl xml2
        (fun u hu => hsame u (List.mem_append_right _ hu))
    have hfold1 : (extractUrlsFromXml xml1).foldl upsertUrl [] =
        extractUrlsFromXml xml1 := by
      rw [foldl_upsertUrl_fresh _ [] (fun u _ v hv => absurd hv (List.not_mem_nil v)) hnd1]
      simp
    have hfold2 : (extractUrlsFromXml xml2).foldl upsertUrl (extractUrlsFromXml xml1) =
        extractUrlsFromXml xml1 ++ extractUrlsFromXml xml2 :=
      foldl_upsertUrl_fresh _ _ (fun u hu v hv => (hdisj v hv u hu).symm) hnd2
    simp only [List.foldl_cons, List.foldl_nil, h1, h2, hp1, hp2]
    rw [hfold1, hfold2]

set_option maxRecDepth 100000 in
/-- Witness for `c7_sitemap_index_union`: a concrete root sitemap listing
two `.xml` children with disjoint one-URL `<url>` sets resolves to the
two-element union. -/
theorem c7_witness :
    parseSitemapXml siteC7 xmlIndexC7 =
      { urls := [], isIndex := true,
        childSitemaps := some (((extractUrlsFromXml xmlIndexC7).filter
          (fun u => endsWithStr u.loc ".xml")).map SitemapUrl.loc) } ∧
    resolveSitemaps siteC7 fetchedC7 "http://s/sitemap.xml" =
      .ok (extractUrlsFromXml xml1C7 ++ extractUrlsFromXml xml2C7) := by
  constructor
  · exact (c7_sitemap_index_union siteC7 xmlIndexC7 fetchedC7 "http://s/sitemap.xml"
      xmlIndexC7 "http://s/a.xml" "http://s/b.xml" xml1C7 xml2C7).1 (by decide)
  · exact (c7_sitemap_index_union siteC7 xmlIndexC7 fetchedC7 "http://s/sitemap.xml"
      xmlIndexC7 "http://s/a.xml" "http://s/b.xml" xml1C7 xml2C7).2
      (by decide) (by decide) (by decide) (by decide)
      (by decide) (by decide) (by decide) (by decide)

/-! ## C5 — `maxPages` and the final processed set -/

theorem insertSorted_length (le : SitemapUrl → SitemapUrl → Bool)
    (x : SitemapUrl) (l : List SitemapUrl) :
    (insertSorted le x l).length = l.length + 1 := by
  induction l with
  | nil => rfl
  | cons y ys ih =>
    unfold insertSorted
    by_cases h : le x y
    · rw [if_pos h]
      rfl
    · rw [if_neg h]
      simp [ih]

theorem stableSort_length (le : SitemapUrl → SitemapUrl → Bool)
    (l : List SitemapUrl) : (stableSort le l).length = l.length := by
  induction l with
  | nil => rfl
  | cons x xs ih =>
    unfold stableSort
    rw [insertSorted_length, ih]
    rfl

theorem sortUrls_length (l : List SitemapUrl) : (sortUrls l).length = l.length :=
  stableSort_length urlLE l

theorem reduceOption_length_le {α : Type} (l : List (Option α)) :
    l.reduceOption.length ≤ l.length := by
  induction l with
  | nil => exact Nat.le_refl 0
  | cons x xs ih =>
    match x with
    | some a =>
      rw [List.reduceOption_cons_of_some]
      simpa using ih
    | none =>
      simp only [List.reduceOption_cons_of_none, List.length_cons]
      omega

theorem crawlPagesSchedule_length_le (crawl : SitemapUrl → PageResult)
    (urls : List SitemapUrl) (order : List Nat) :
    (crawlPagesSchedule crawl urls order).length ≤ urls.length := by
  unfold crawlPagesSchedule crawlWrites
  refine le_trans (reduceOption_length_le _) ?_
  rw [crawlWrites_foldl_length, List.length_replicate]

theorem applyCharacterLimits_length_le (o : GenOpts) (pages : List PageResult) :
    (applyCharacterLimits o pages).1.length ≤ pages.length := by
  have h := (applyCharacterLimits_spec o pages).1
  calc (applyCharacterLimits o pages).1.length
      = ((pages.take (applyCharacterLimits o pages).1.length).map
          (perPageTruncate o)).length := by rw [← h]
    _ ≤ pages.length := by
        rw [List.length_map, List.length_take]
        omega

set_option maxRecDepth 1000000 in
/-- C5 counterexample: with recursive discovery enabled, `maxPages = 1` and
a seed page linking to two further internal pages, the final processed set
holds 3 pages — `len(processedPages) ≤ maxPages` fails for this run. -/
theorem c5_counterexample :
    optsC5.maxPages = 1 ∧
    (runPipeline optsC5 oracleC5 (fun _ => okAttempts) okExtract idTransform
      urlsC5).1.length = 3 := by
  constructor
  · rfl
  · decide

/-- C5 (amended): in runs WITHOUT recursive discovery the final processed
set has at most `max maxPages 1` pages (`filterUrls` caps at `maxPages` but
may substitute one fallback page when the filtered list is empty, so a run
with `maxPages = 0` still crawls one page); with recursive discovery
enabled, newly discovered links are never capped by `maxPages`, so the
bound fails (see the counterexample). -/
theorem c5_maxPages_amended (o : GenOpts) (oracle : String → List String)
    (attempts : String → Nat → Except String HttpResponse)
    (extract : String → String → Except String ExtractedPage)
    (transform : String → String → String)
    (urls : List SitemapUrl)
    (h : o.enableRecursiveDiscovery = false) :
    (runPipeline o oracle attempts extract transform urls).1.length
      ≤ max o.maxPages 1 := by
  have hdis : discoverUrlsRecursively o oracle (filterUrls o urls) =
      (filterUrls o urls).map
        (fun u => { url := u.loc, depth := 0, lastmod := u.lastmod }) := by
    unfold discoverUrlsRecursively
    rw [h]
    simp
  unfold runPipeline
  refine le_trans (applyCharacterLimits_length_le o _) ?_
  refine le_trans (crawlPagesSchedule_length_le _ _ _) ?_
  rw [sortUrls_length, List.length_map, hdis, List.length_map]
  exact filterUrls_length_le o urls

set_option maxRecDepth 100000 in
/-- Witness for `c5_maxPages_amended` at a concrete non-recursive run. -/
theorem c5_witness :
    (runPipeline optsW5 oracleC5 (fun _ => okAttempts) okExtract idTransform
      urlsC5).1.length ≤ max optsW5.maxPages 1 :=
  c5_maxPages_amended optsW5 oracleC5 (fun _ => okAttempts) okExtract idTransform
    urlsC5 (by decide)

/-! ## C9 — idempotence of `normalizeUrl` -/

theorem splitAtChar_of_not_mem (c : Char) (s : List Char) (h : c ∉ s) :
    splitAtChar c s = (s, none) := by
  induction s with
  | nil => rfl
  | cons x xs ih =>
    unfold splitAtChar
    rw [if_neg (fun he : x = c => h (he ▸ List.mem_cons_self x xs))]
    rw [ih (fun hm => h (List.mem_cons_of_mem x hm))]

theorem splitAtChar_append (c : Char) (a b : List Char) (h : c ∉ a) :
    splitAtChar c (a ++ c :: b) = (a, some b) := by
  induction a with
  | nil => simp [splitAtChar]
  | cons x xs ih =>
    rw [List.cons_append]
    unfold splitAtChar
    rw [if_neg (fun he : x = c => h (he ▸ List.mem_cons_self x xs))]
    rw [ih (fun hm => h (List.mem_cons_of_mem x hm))]

theorem splitAtChar_fst_not_mem (c : Char) (s : List Char) :
    c ∉ (splitAtChar c s).1 := by
  induction s with
  | nil => simp [splitAtChar]
  | cons x xs ih =>
    unfold splitAtChar
    by_cases h : x = c
    · rw [if_pos h]
      simp
    · rw [if_neg h]
      dsimp only
      intro hm
      rcases List.mem_cons.mp hm with he | hm2
      · exact h he.symm
      · exact ih hm2

theorem splitAtChar_recover_some (c : Char) (s b : List Char)
    (h : (splitAtChar c s).2 = some b) : s = (splitAtChar c s).1 ++ c :: b := by
  induction s generalizing b with
  | nil => simp [splitAtChar] at h
  | cons x xs ih =>
    unfold splitAtChar at h ⊢
    by_cases hx : x = c
    · rw [if_pos hx] at h ⊢
      dsimp only at h ⊢
      cases h
      rw [hx]
      rfl
    · rw [if_neg hx] at h ⊢
      dsimp only at h ⊢
      rw [List.cons_append, ← ih b h]

theorem splitAtChar_recover_none (c : Char) (s : List Char)
    (h : (splitAtChar c s).2 = none) : s = (splitAtChar c s).1 := by
  induction s with
  | nil => rfl
  | cons x xs ih =>
    unfold splitAtChar at h ⊢
    by_cases hx : x = c
    · rw [if_pos hx] at h
      dsimp only at h
      cases h
    · rw [if_neg hx] at h ⊢
      dsimp only at h ⊢
      rw [← ih h]

theorem splitAtChar_fst_subset (c : Char) (s : List Char) :
    ∀ x ∈ (splitAtChar c s).1, x ∈ s := by
  intro x hx
  rcases h2 : (splitAtChar c s).2 with _ | b
  · rw [splitAtChar_recover_none c s h2]
    exact hx
  · rw [splitAtChar_recover_some c s b h2]
    exact List.mem_append_left _ hx

theorem splitAtChar_snd_subset (c : Char) (s b : List Char)
    (h : (splitAtChar c s).2 = some b) : ∀ x ∈ b, x ∈ s := by
  intro x hx
  rw [splitAtChar_recover_some c s b h]
  exact List.mem_append_right _ (List.mem_cons_of_mem c hx)

/-- Everything `parseUrl` returns satisfies `UrlInv`. -/
theorem parseUrl_inv (s : List Char) (o : UrlObj) (h : parseUrl s = some o) :
    UrlInv o := by
  unfold parseUrl at h
  split at h
  · exact absurd h (by simp)
  · rename_i rest heq1
    split at h
    · exact absurd h (by simp)
    · rename_i hcond
      rw [not_or] at hcond
      split at h
      · rename_i hostpath
        split at h
        · exact absurd h (by simp)
        · rename_i hhost
          have hmemq1 : ∀ x ∈ (splitAtChar '/' hostpath).1,
              x ∈ (splitAtChar '?' (splitAtChar '#' s).1).1 := by
            intro x hx
            have hx2 : x ∈ hostpath := splitAtChar_fst_subset '/' hostpath x hx
            have hx3 : x ∈ '/' :: '/' :: hostpath :=
              List.mem_cons_of_mem _ (List.mem_cons_of_mem _ hx2)
            exact splitAtChar_snd_subset ':' _ _ heq1 x hx3
          have hpathq1 : ∀ b, (splitAtChar '/' hostpath).2 = some b →
              ∀ x ∈ b, x ∈ (splitAtChar '?' (splitAtChar '#' s).1).1 := by
            intro b hb x hx
            have hx2 : x ∈ hostpath := splitAtChar_snd_subset '/' hostpath b hb x hx
            have hx3 : x ∈ '/' :: '/' :: hostpath :=
              List.mem_cons_of_mem _ (List.mem_cons_of_mem _ hx2)
            exact splitAtChar_snd_subset ':' _ _ heq1 x hx3
          have hq1bh : ∀ x ∈ (splitAtChar '?' (splitAtChar '#' s).1).1,
              x ∈ (splitAtChar '#' s).1 :=
            splitAtChar_fst_subset '?' _
          have hsearch : '#' ∉ (splitAtChar '?' (splitAtChar '#' s).1).2.getD [] := by
            rcases hq2 : (splitAtChar '?' (splitAtChar '#' s).1).2 with _ | bs
            · simp
            · intro hm
              exact splitAtChar_fst_not_mem '#' s
                (splitAtChar_snd_subset '?' _ bs hq2 _ (by simpa using hm))
          split at h
          · rename_i heq3
            injection h with h
            subst h
            simp only [UrlInv]
            refine ⟨hcond.1, splitAtChar_fst_not_mem ':' _, hcond.2, ?_, ?_,
              hhost, splitAtChar_fst_not_mem '/' _, ?_, ?_, ⟨[], rfl⟩,
              by simp, by simp, hsearch⟩
            · intro hm
              exact splitAtChar_fst_not_mem '?' _
                (splitAtChar_fst_subset ':' _ _ hm)
            · intro hm
              exact splitAtChar_fst_not_mem '#' s
                (hq1bh _ (splitAtChar_fst_subset ':' _ _ hm))
            · intro hm
              exact splitAtChar_fst_not_mem '?' _ (hmemq1 _ hm)
            · intro hm
              exact splitAtChar_fst_not_mem '#' s (hq1bh _ (hmemq1 _ hm))
          · rename_i p heq3
            injection h with h
            subst h
            simp only [UrlInv]
            refine ⟨hcond.1, splitAtChar_fst_not_mem ':' _, hcond.2, ?_, ?_,
              hhost, splitAtChar_fst_not_mem '/' _, ?_, ?_, ⟨p, rfl⟩,
              ?_, ?_, hsearch⟩
            · intro hm
              exact splitAtChar_fst_not_mem '?' _
                (splitAtChar_fst_subset ':' _ _ hm)
            · intro hm
              exact splitAtChar_fst_not_mem '#' s
                (hq1bh _ (splitAtChar_fst_subset ':' _ _ hm))
            · intro hm
              exact splitAtChar_fst_not_mem '?' _ (hmemq1 _ hm)
            · intro hm
              exact splitAtChar_fst_not_mem '#' s (hq1bh _ (hmemq1 _ hm))
            · intro hm
              rcases List.mem_cons.mp hm with he | hm2
              · exact absurd he (by decide)
              · exact splitAtChar_fst_not_mem '?' _ (hpathq1 p heq3 _ hm2)
            · intro hm
              rcases List.mem_cons.mp hm with he | hm2
              · exact absurd he (by decide)
              · exact splitAtChar_fst_not_mem '#' s (hq1bh _ (hpathq1 p heq3 _ hm2))
      · exact absurd h (by simp)

/-- Serialization round trip: a well-formed URL object with no fragment
parses back to itself. -/
theorem parseUrl_serializeUrl (o : UrlObj) (hinv : UrlInv o) (hh : o.hash = []) :
    parseUrl (serializeUrl o) = some o := by
  obtain ⟨hs1, hs2, hs3, hs4, hs5, hh1, hh2, hh3, hh4, ⟨p, hp⟩, hp2, hp3, hq⟩ := hinv
  have hB_noq : '?' ∉ o.scheme ++ ':' :: '/' :: '/' :: (o.host ++ o.pathname) := by
    intro hm
    simp only [List.mem_append, List.mem_cons] at hm
    rcases hm with h | h | h | h | h | h
    · exact hs4 h
    · exact absurd h (by decide)
    · exact absurd h (by decide)
    · exact absurd h (by decide)
    · exact hh3 h
    · exact hp2 h
  have hB_noHash : '#' ∉ o.scheme ++ ':' :: '/' :: '/' :: (o.host ++ o.pathname) := by
    intro hm
    simp only [List.mem_append, List.mem_cons] at hm
    rcases hm with h | h | h | h | h | h
    · exact hs5 h
    · exact absurd h (by decide)
    · exact absurd h (by decide)
    · exact absurd h (by decide)
    · exact hh4 h
    · exact hp3 h
  have hoeq : ∀ se ha, se = o.search → ha = o.hash →
      ({ scheme := o.scheme, host := o.host, pathname := '/' :: p,
         search := se, hash := ha } : UrlObj) = o := by
    intro se ha hse hha
    obtain ⟨sc, ho, pa, se2, ha2⟩ := o
    simp only at hp hse hha ⊢
    rw [hp, hse, hha]
  by_cases hsearch : o.search = []
  · have hser : serializeUrl o =
        o.scheme ++ ':' :: '/' :: '/' :: (o.host ++ o.pathname) := by
      unfold serializeUrl
      rw [hsearch, hh]
      simp
    rw [hser]
    unfold parseUrl
    rw [splitAtChar_of_not_mem '#' _ hB_noHash]
    dsimp only
    rw [splitAtChar_of_not_mem '?' _ hB_noq]
    dsimp only
    rw [splitAtChar_append ':' o.scheme _ hs2]
    dsimp only
    rw [if_neg (not_or.mpr ⟨hs1, hs3⟩)]
    rw [hp]
    show (if (splitAtChar '/' (o.host ++ '/' :: p)).1 = [] then none
      else some
        { scheme := o.scheme,
          host := (splitAtChar '/' (o.host ++ '/' :: p)).1,
          pathname :=
            (match (splitAtChar '/' (o.host ++ '/' :: p)).2 with
            | none => ['/']
            | some p2 => '/' :: p2),
          search := (none : Option (List Char)).getD [],
          hash := (none : Option (List Char)).getD [] }) = some o
    rw [splitAtChar_append '/' o.host p hh2]
    dsimp only
    rw [if_neg hh1]
    simp only [Option.getD_none, Option.getD_some]
    rw [hoeq [] [] hsearch.symm hh.symm]
  · have hser : serializeUrl o =
        (o.scheme ++ ':' :: '/' :: '/' :: (o.host ++ o.pathname)) ++ '?' :: o.search := by
      unfold serializeUrl
      rw [hh, if_neg hsearch]
      simp
    have hnoHash2 : '#' ∉
        (o.scheme ++ ':' :: '/' :: '/' :: (o.host ++ o.pathname)) ++ '?' :: o.search := by
      intro hm
      rcases List.mem_append.mp hm with h | h
      · exact hB_noHash h
      · rcases List.mem_cons.mp h with he | h2
        · exact absurd he (by decide)
        · exact hq h2
    rw [hser]
    unfold parseUrl
    rw [splitAtChar_of_not_mem '#' _ hnoHash2]
    dsimp only
    rw [splitAtChar_append '?' _ _ hB_noq]
    dsimp only
    rw [splitAtChar_append ':' o.scheme _ hs2]
    dsimp only
    rw [if_neg (not_or.mpr ⟨hs1, hs3⟩)]
    rw [hp]
    show (if (splitAtChar '/' (o.host ++ '/' :: p)).1 = [] then none
      else some
        { scheme := o.scheme,
          host := (splitAtChar '/' (o.host ++ '/' :: p)).1,
          pathname :=
            (match (splitAtChar '/' (o.host ++ '/' :: p)).2 with
            | none => ['/']
            | some p2 => '/' :: p2),
          search := (some o.search).getD [],
          hash := (none : Option (List Char)).getD [] }) = some o
    rw [splitAtChar_append '/' o.host p hh2]
    dsimp only
    rw [if_neg hh1]
    simp only [Option.getD_none, Option.getD_some]
    rw [hoeq o.search [] rfl hh.symm]

theorem splitAll_of_not_mem (c : Char) (s : List Char) (h : c ∉ s) :
    splitAll c s = [s] := by
  induction s with
  | nil => rfl
  | cons x xs ih =>
    unfold splitAll
    rw [if_neg (fun he : x = c => h (he ▸ List.mem_cons_self x xs))]
    rw [ih (fun hm => h (List.mem_cons_of_mem x hm))]

theorem splitAll_append (c : Char) (a b : List Char) (h : c ∉ a) :
    splitAll c (a ++ c :: b) = a :: splitAll c b := by
  induction a with
  | nil =>
    show (if c = c then [] :: splitAll c b
      else
        match splitAll c b with
        | [] => [[c]]
        | a :: rest => (c :: a) :: rest) = [] :: splitAll c b
    rw [if_pos rfl]
  | cons x xs ih =>
    rw [List.cons_append]
    show (if x = c then [] :: splitAll c (xs ++ c :: b)
      else
        match splitAll c (xs ++ c :: b) with
        | [] => [[x]]
        | a :: rest => (x :: a) :: rest) = (x :: xs) :: splitAll c b
    rw [if_neg (fun he : x = c => h (he ▸ List.mem_cons_self x xs))]
    rw [ih (fun hm => h (List.mem_cons_of_mem x hm))]

theorem splitAll_ne_nil (c : Char) (s : List Char) : splitAll c s ≠ [] := by
  induction s with
  | nil => simp [splitAll]
  | cons x xs ih =>
    unfold splitAll
    by_cases h : x = c
    · rw [if_pos h]
      simp
    · rw [if_neg h]
      rcases hs : splitAll c xs with _ | ⟨a, rest⟩
      · simp
      · simp

theorem splitAll_mem_not_mem (c : Char) (s : List Char) :
    ∀ piece ∈ splitAll c s, c ∉ piece := by
  induction s with
  | nil =>
    intro piece hp
    simp only [splitAll, List.mem_singleton] at hp
    subst hp
    exact List.not_mem_nil c
  | cons x xs ih =>
    intro piece hp
    unfold splitAll at hp
    by_cases h : x = c
    · rw [if_pos h] at hp
      rcases List.mem_cons.mp hp with he | hm
      · subst he
        exact List.not_mem_nil c
      · exact ih piece hm
    · rw [if_neg h] at hp
      rcases hs : splitAll c xs with _ | ⟨a, rest⟩
      · exact absurd hs (splitAll_ne_nil c xs)
      · rw [hs] at hp
        rcases List.mem_cons.mp hp with he | hm
        · subst he
          intro hm2
          rcases List.mem_cons.mp hm2 with he2 | hm3
          · exact h he2.symm
          · exact ih a (hs ▸ List.mem_cons_self a rest) hm3
        · exact ih piece (hs ▸ List.mem_cons_of_mem a hm)

theorem splitAll_mem_subset (c : Char) (s : List Char) :
    ∀ piece ∈ splitAll c s, ∀ x ∈ piece, x ∈ s := by
  induction s with
  | nil =>
    intro piece hp
    simp only [splitAll, List.mem_singleton] at hp
    subst hp
    intro x hx
    exact hx
  | cons y xs ih =>
    intro piece hp x hx
    unfold splitAll at hp
    by_cases h : y = c
    · rw [if_pos h] at hp
      rcases List.mem_cons.mp hp with he | hm
      · subst he
        exact absurd hx (List.not_mem_nil x)
      · exact List.mem_cons_of_mem y (ih piece hm x hx)
    · rw [if_neg h] at hp
      rcases hs : splitAll c xs with _ | ⟨a, rest⟩
      · exact absurd hs (splitAll_ne_nil c xs)
      · rw [hs] at hp
        rcases List.mem_cons.mp hp with he | hm
        · subst he
          rcases List.mem_cons.mp hx with he2 | hm2
          · exact he2 ▸ List.mem_cons_self y xs
          · exact List.mem_cons_of_mem y
              (ih a (hs ▸ List.mem_cons_self a rest) x hm2)
        · exact List.mem_cons_of_mem y
            (ih piece (hs ▸ List.mem_cons_of_mem a hm) x hx)

/-- Keys produced by `parseParams` contain no `&` or `=`, values no `&`,
and every character comes from the input string. -/
theorem parseParams_mem (s : List Char) (k v : List Char)
    (h : (k, v) ∈ parseParams s) :
    '&' ∉ k ∧ '=' ∉ k ∧ '&' ∉ v ∧ (∀ x ∈ k, x ∈ s) ∧ ∀ x ∈ v, x ∈ s := by
  unfold parseParams at h
  rcases List.mem_filterMap.mp h with ⟨piece, hpmem, hpf⟩
  have hpAmp : '&' ∉ piece := splitAll_mem_not_mem '&' s piece hpmem
  have hpSub : ∀ x ∈ piece, x ∈ s := splitAll_mem_subset '&' s piece hpmem
  by_cases hpe : piece = []
  · rw [if_pos hpe] at hpf
    cases hpf
  · rw [if_neg hpe] at hpf
    rcases h2 : (splitAtChar '=' piece).2 with _ | b
    · rw [show splitAtChar '=' piece = ((splitAtChar '=' piece).1, (splitAtChar '=' piece).2) from rfl, h2] at hpf
      dsimp only at hpf
      injection hpf with hpf
      injection hpf with hk hv
      subst hk
      subst hv
      refine ⟨?_, splitAtChar_fst_not_mem '=' piece, List.not_mem_nil '&', ?_,
        fun x hx => absurd hx (List.not_mem_nil x)⟩
      · intro hm
        exact hpAmp (splitAtChar_fst_subset '=' piece '&' hm)
      · intro x hx
        exact hpSub x (splitAtChar_fst_subset '=' piece x hx)
    · rw [show splitAtChar '=' piece = ((splitAtChar '=' piece).1, (splitAtChar '=' piece).2) from rfl, h2] at hpf
      dsimp only at hpf
      injection hpf with hpf
      injection hpf with hk hv
      subst hk
      subst hv
      refine ⟨?_, splitAtChar_fst_not_mem '=' piece, ?_, ?_, ?_⟩
      · intro hm
        exact hpAmp (splitAtChar_fst_subset '=' piece '&' hm)
      · intro hm
        exact hpAmp (splitAtChar_snd_subset '=' piece b h2 '&' hm)
      · intro x hx
        exact hpSub x (splitAtChar_fst_subset '=' piece x hx)
      · intro x hx
        exact hpSub x (splitAtChar_snd_subset '=' piece b h2 x hx)

/-- `URLSearchParams` round trip: serializing pairs whose keys avoid `&`
and `=` and whose values avoid `&` and parsing the result recovers the
pairs. -/
theorem parseParams_serializeParams :
    ∀ kvs : List (List Char × List Char),
      (∀ p ∈ kvs, '&' ∉ p.1 ∧ '=' ∉ p.1 ∧ '&' ∉ p.2) →
      parseParams (serializeParams kvs) = kvs := by
  intro kvs
  induction kvs with
  | nil => intro _; rfl
  | cons p ps ih =>
    intro hch
    obtain ⟨hk1, hk2, hv1⟩ := hch p (List.mem_cons_self p ps)
    have hpiece : '&' ∉ p.1 ++ '=' :: p.2 := by
      intro hm
      rcases List.mem_append.mp hm with h | h
      · exact hk1 h
      · rcases List.mem_cons.mp h with he | h2
        · exact absurd he (by decide)
        · exact hv1 h2
    have hpieceNe : p.1 ++ '=' :: p.2 ≠ [] := by simp
    have hsplitEq : splitAtChar '=' (p.1 ++ '=' :: p.2) = (p.1, some p.2) :=
      splitAtChar_append '=' p.1 p.2 hk2
    match ps with
    | [] =>
      show parseParams (p.1 ++ '=' :: p.2) = [p]
      unfold parseParams
      rw [splitAll_of_not_mem '&' _ hpiece]
      rw [List.filterMap_cons, List.filterMap_nil]
      rw [if_neg hpieceNe, hsplitEq]
    | q :: qs =>
      have hone : serializeParams (p :: q :: qs) =
          (p.1 ++ '=' :: p.2) ++ '&' :: serializeParams (q :: qs) := by
        show p.1 ++ '=' :: p.2 ++ '&' :: serializeParams (q :: qs) =
          (p.1 ++ '=' :: p.2) ++ '&' :: serializeParams (q :: qs)
        simp [List.append_assoc]
      show parseParams (serializeParams (p :: q :: qs)) = p :: q :: qs
      rw [hone]
      unfold parseParams
      rw [splitAll_append '&' _ _ hpiece]
      rw [List.filterMap_cons]
      rw [if_neg hpieceNe, hsplitEq]
      have := ih (fun r hr => hch r (List.mem_cons_of_mem p hr))
      unfold parseParams at this
      rw [this]

theorem getParam_cons_eq (p : List Char × List Char)
    (ps : List (List Char × List Char)) (k : List Char) (h : p.1 = k) :
    getParam (p :: ps) k = some p.2 := by
  unfold getParam
  rw [List.find?_cons_of_pos ps (by simpa using h)]
  rfl

theorem getParam_cons_ne (p : List Char × List Char)
    (ps : List (List Char × List Char)) (k : List Char) (h : p.1 ≠ k) :
    getParam (p :: ps) k = getParam ps k := by
  unfold getParam
  rw [List.find?_cons_of_neg ps (by simpa using h)]

theorem getParam_setParam_self (k v : List Char)
    (ps : List (List Char × List Char)) :
    getParam (setParam k v ps) k = some v := by
  induction ps with
  | nil => exact getParam_cons_eq (k, v) [] k rfl
  | cons p ps ih =>
    unfold setParam
    by_cases h : p.1 = k
    · rw [if_pos h]
      exact getParam_cons_eq (k, v) _ k rfl
    · rw [if_neg h]
      rw [getParam_cons_ne p _ k h]
      exact ih

theorem removeKey_getParam_ne (k k2 : List Char)
    (ps : List (List Char × List Char)) (h : k2 ≠ k) :
    getParam (removeKey k ps) k2 = getParam ps k2 := by
  induction ps with
  | nil => rfl
  | cons p ps ih =>
    unfold removeKey
    by_cases hp : p.1 = k
    · rw [if_pos hp]
      rw [ih, getParam_cons_ne p ps k2 (fun he => h (by rw [← he]; exact hp))]
    · rw [if_neg hp]
      by_cases hp2 : p.1 = k2
      · rw [getParam_cons_eq p _ k2 hp2, getParam_cons_eq p ps k2 hp2]
      · rw [getParam_cons_ne p _ k2 hp2, getParam_cons_ne p ps k2 hp2]
        exact ih

theorem getParam_setParam_ne (k k2 v : List Char)
    (ps : List (List Char × List Char)) (h : k2 ≠ k) :
    getParam (setParam k v ps) k2 = getParam ps k2 := by
  induction ps with
  | nil =>
    show getParam [(k, v)] k2 = getParam [] k2
    rw [getParam_cons_ne (k, v) [] k2 (fun he => h he.symm)]
  | cons p ps ih =>
    unfold setParam
    by_cases hp : p.1 = k
    · rw [if_pos hp]
      rw [getParam_cons_ne (k, v) _ k2 (fun he => h he.symm)]
      rw [removeKey_getParam_ne k k2 ps h]
      rw [getParam_cons_ne p ps k2 (fun he => h (by rw [← he]; exact hp))]
    · rw [if_neg hp]
      by_cases hp2 : p.1 = k2
      · rw [getParam_cons_eq p _ k2 hp2, getParam_cons_eq p ps k2 hp2]
      · rw [getParam_cons_ne p _ k2 hp2, getParam_cons_ne p ps k2 hp2]
        exact ih

theorem buildKept_aux_not_mem (f : List Char → Option (List Char)) :
    ∀ (keep : List (List Char)) (acc : List (List Char × List Char))
      (k : List Char), k ∉ keep →
      getParam (keep.foldl
        (fun acc k =>
          match f k with
          | some v => setParam k v acc
          | none => acc) acc) k = getParam acc k := by
  intro keep
  induction keep with
  | nil => intro acc k _; rfl
  | cons k1 rest ih =>
    intro acc k hk
    simp only [List.foldl_cons]
    have hk1 : k ≠ k1 := fun he => hk (he ▸ List.mem_cons_self k1 rest)
    have hkr : k ∉ rest := fun hm => hk (List.mem_cons_of_mem k1 hm)
    rw [ih _ k hkr]
    rcases hf : f k1 with _ | v
    · rfl
    · exact getParam_setParam_ne k1 k v acc hk1

theorem buildKept_aux_none (f : List Char → Option (List Char))
    (k : List Char) (hf : f k = none) :
    ∀ (keep : List (List Char)) (acc : List (List Char × List Char)),
      getParam (keep.foldl
        (fun acc k =>
          match f k with
          | some v => setParam k v acc
          | none => acc) acc) k = getParam acc k := by
  intro keep
  induction keep with
  | nil => intro acc; rfl
  | cons k1 rest ih =>
    intro acc
    simp only [List.foldl_cons]
    rw [ih]
    by_cases hk1 : k1 = k
    · subst hk1
      rw [hf]
    · rcases hf1 : f k1 with _ | v
      · rfl
      · exact getParam_setParam_ne k1 k v acc (fun he => hk1 he.symm)

theorem buildKept_aux_some (f : List Char → Option (List Char))
    (k v : List Char) (hf : f k = some v) :
    ∀ (keep : List (List Char)) (acc : List (List Char × List Char)),
      k ∈ keep →
      getParam (keep.foldl
        (fun acc k =>
          match f k with
          | some v => setParam k v acc
          | none => acc) acc) k = some v := by
  intro keep
  induction keep with
  | nil => intro acc hk; exact absurd hk (List.not_mem_nil k)
  | cons k1 rest ih =>
    intro acc hk
    simp only [List.foldl_cons]
    by_cases hkr : k ∈ rest
    · exact ih _ hkr
    · have hk1 : k1 = k := by
        rcases List.mem_cons.mp hk with he | hm
        · exact he.symm
        · exact absurd hm hkr
      subst hk1
      rw [buildKept_aux_not_mem f rest _ k1 hkr]
      rw [hf]
      exact getParam_setParam_self k1 v acc

/-- For a name in the keep list, looking it up in the rebuilt parameter
list gives exactly what the lookup function gave. -/
theorem getParam_buildKept (f : List Char → Option (List Char))
    (keep : List (List Char)) (k : List Char) (hk : k ∈ keep) :
    getParam (buildKept keep f) k = f k := by
  rcases hf : f k with _ | v
  · unfold buildKept
    rw [buildKept_aux_none f k hf keep []]
    rfl
  · unfold buildKept
    exact buildKept_aux_some f k v hf keep [] hk

theorem buildKept_congr (f g : List Char → Option (List Char)) :
    ∀ (keep : List (List Char)) (acc : List (List Char × List Char)),
      (∀ k ∈ keep, f k = g k) →
      keep.foldl
        (fun acc k =>
          match f k with
          | some v => setParam k v acc
          | none => acc) acc =
      keep.foldl
        (fun acc k =>
          match g k with
          | some v => setParam k v acc
          | none => acc) acc := by
  intro keep
  induction keep with
  | nil => intro acc _; rfl
  | cons k1 rest ih =>
    intro acc h
    simp only [List.foldl_cons]
    rw [h k1 (List.mem_cons_self k1 rest)]
    exact ih _ (fun k hk => h k (List.mem_cons_of_mem k1 hk))

theorem removeKey_subset (k : List Char) :
    ∀ (ps : List (List Char × List Char)) (p : List Char × List Char),
      p ∈ removeKey k ps → p ∈ ps := by
  intro ps
  induction ps with
  | nil => intro p hp; exact absurd hp (List.not_mem_nil p)
  | cons q qs ih =>
    intro p hp
    unfold removeKey at hp
    by_cases hq : q.1 = k
    · rw [if_pos hq] at hp
      exact List.mem_cons_of_mem q (ih p hp)
    · rw [if_neg hq] at hp
      rcases List.mem_cons.mp hp with he | hm
      · exact he ▸ List.mem_cons_self q qs
      · exact List.mem_cons_of_mem q (ih p hm)

theorem setParam_mem (k v : List Char) :
    ∀ (ps : List (List Char × List Char)) (p : List Char × List Char),
      p ∈ setParam k v ps → p = (k, v) ∨ p ∈ ps := by
  intro ps
  induction ps with
  | nil =>
    intro p hp
    left
    rw [show setParam k v [] = [(k, v)] from rfl] at hp
    simpa using hp
  | cons q qs ih =>
    intro p hp
    unfold setParam at hp
    by_cases hq : q.1 = k
    · rw [if_pos hq] at hp
      rcases List.mem_cons.mp hp with he | hm
      · exact Or.inl he
      · exact Or.inr (List.mem_cons_of_mem q (removeKey_subset k qs p hm))
    · rw [if_neg hq] at hp
      rcases List.mem_cons.mp hp with he | hm
      · exact Or.inr (he ▸ List.mem_cons_self q qs)
      · rcases ih p hm with h1 | h1
        · exact Or.inl h1
        · exact Or.inr (List.mem_cons_of_mem q h1)

/-- Every pair in the rebuilt parameter list was produced by a successful
lookup. -/
theorem buildKept_mem (f : List Char → Option (List Char)) :
    ∀ (keep : List (List Char)) (acc : List (List Char × List Char)),
      (∀ q ∈ acc, f q.1 = some q.2) →
      ∀ p ∈ keep.foldl
        (fun acc k =>
          match f k with
          | some v => setParam k v acc
          | none => acc) acc, f p.1 = some p.2 := by
  intro keep
  induction keep with
  | nil => intro acc hacc p hp; exact hacc p hp
  | cons k1 rest ih =>
    intro acc hacc p hp
    simp only [List.foldl_cons] at hp
    refine ih _ ?_ p hp
    intro q hq
    rcases hf : f k1 with _ | v
    · rw [hf] at hq
      exact hacc q hq
    · rw [hf] at hq
      rcases setParam_mem k1 v acc q hq with he | hm
      · rw [he, hf]
      · exact hacc q hm

theorem getParam_some_mem (ps : List (List Char × List Char)) (k v : List Char)
    (h : getParam ps k = some v) : ∃ p ∈ ps, p.1 = k ∧ p.2 = v := by
  unfold getParam at h
  rcases hf : ps.find? (fun p => p.1 = k) with _ | p
  · rw [hf] at h
    cases h
  · rw [hf] at h
    injection h with h
    exact ⟨p, List.mem_of_find?_eq_some hf, by simpa using List.find?_some hf, h⟩

theorem serializeParams_mem_chars :
    ∀ (kvs : List (List Char × List Char)) (x : Char), x ∈ serializeParams kvs →
      x = '=' ∨ x = '&' ∨ ∃ p ∈ kvs, x ∈ p.1 ∨ x ∈ p.2 := by
  intro kvs
  induction kvs with
  | nil => intro x hx; exact absurd hx (List.not_mem_nil x)
  | cons p ps ih =>
    intro x hx
    rcases ps with _ | ⟨q, qs⟩
    · rw [show serializeParams [p] = p.1 ++ '=' :: p.2 from rfl] at hx
      rcases List.mem_append.mp hx with h | h
      · exact Or.inr (Or.inr ⟨p, List.mem_cons_self p [], Or.inl h⟩)
      · rcases List.mem_cons.mp h with he | h2
        · exact Or.inl he
        · exact Or.inr (Or.inr ⟨p, List.mem_cons_self p [], Or.inr h2⟩)
    · rw [show serializeParams (p :: q :: qs) =
          p.1 ++ '=' :: p.2 ++ '&' :: serializeParams (q :: qs) from rfl] at hx
      rcases List.mem_append.mp hx with h | h
      · rcases List.mem_append.mp h with h2 | h2
        · exact Or.inr (Or.inr ⟨p, List.mem_cons_self p _, Or.inl h2⟩)
        · rcases List.mem_cons.mp h2 with he | h3
          · exact Or.inl he
          · exact Or.inr (Or.inr ⟨p, List.mem_cons_self p _, Or.inr h3⟩)
      · rcases List.mem_cons.mp h with he2 | h4
        · exact Or.inr (Or.inl he2)
        · rcases ih x h4 with h5 | h5 | ⟨r, hr, h5⟩
          · exact Or.inl h5
          · exact Or.inr (Or.inl h5)
          · exact Or.inr (Or.inr ⟨r, List.mem_cons_of_mem p hr, h5⟩)

/-- The pairs the rebuild keeps all come from the parsed search string. -/
theorem buildKept_pairs_from (keep : List (List Char)) (s : List Char) :
    ∀ p ∈ buildKept keep (getParam (parseParams s)),
      '&' ∉ p.1 ∧ '=' ∉ p.1 ∧ '&' ∉ p.2 ∧ (∀ x ∈ p.1, x ∈ s) ∧ ∀ x ∈ p.2, x ∈ s := by
  intro p hp
  have hfk := buildKept_mem (getParam (parseParams s)) keep []
    (fun q hq => absurd hq (List.not_mem_nil q)) p hp
  rcases getParam_some_mem _ _ _ hfk with ⟨q, hq, hq1, hq2⟩
  have hqmem : (q.1, q.2) ∈ parseParams s := by
    rw [Prod.mk.eta]
    exact hq
  obtain ⟨ha1, ha2, ha3, ha4, ha5⟩ := parseParams_mem s q.1 q.2 hqmem
  rw [← hq1, ← hq2]
  exact ⟨ha1, ha2, ha3, ha4, ha5⟩

theorem rebuildSearch_no_hash (keep : List (List Char)) (s : List Char)
    (hs : '#' ∉ s) : '#' ∉ rebuildSearch keep s := by
  intro hm
  unfold rebuildSearch at hm
  rcases serializeParams_mem_chars _ '#' hm with he | he | ⟨p, hp, hx⟩
  · exact absurd he (by decide)
  · exact absurd he (by decide)
  · obtain ⟨_, _, _, hk_s, hv_s⟩ := buildKept_pairs_from keep s p hp
    rcases hx with hx | hx
    · exact hs (hk_s '#' hx)
    · exact hs (hv_s '#' hx)

/-- Rebuilding the kept query parameters is idempotent. -/
theorem rebuildSearch_idem (keep : List (List Char)) (s : List Char) :
    rebuildSearch keep (rebuildSearch keep s) = rebuildSearch keep s := by
  have hkvs : ∀ p ∈ buildKept keep (getParam (parseParams s)),
      '&' ∉ p.1 ∧ '=' ∉ p.1 ∧ '&' ∉ p.2 := by
    intro p hp
    obtain ⟨h1, h2, h3, _, _⟩ := buildKept_pairs_from keep s p hp
    exact ⟨h1, h2, h3⟩
  have hpp : parseParams (serializeParams (buildKept keep (getParam (parseParams s)))) =
      buildKept keep (getParam (parseParams s)) :=
    parseParams_serializeParams _ hkvs
  show serializeParams (buildKept keep (getParam (parseParams (rebuildSearch keep s)))) =
    rebuildSearch keep s
  unfold rebuildSearch
  rw [hpp]
  have hcongr : buildKept keep
      (getParam (buildKept keep (getParam (parseParams s)))) =
      buildKept keep (getParam (parseParams s)) :=
    buildKept_congr _ _ keep []
      (fun k hk => getParam_buildKept (getParam (parseParams s)) keep k hk)
  rw [hcongr]

/-- Idempotence of `normalizeUrl` at the character-list level. -/
theorem normalizeUrlL_idem (keep : List (List Char)) (u : List Char) :
    normalizeUrlL keep (normalizeUrlL keep u) = normalizeUrlL keep u := by
  rcases hp : parseUrl u with _ | o
  · have h1 : normalizeUrlL keep u = u := by
      unfold normalizeUrlL
      rw [hp]
    rw [h1, h1]
  · obtain ⟨hs1, hs2, hs3, hs4, hs5, hh1, hh2, hh3, hh4, hpath, hpq, hph, hq⟩ :=
      parseUrl_inv u o hp
    have hinv' : UrlInv
        { o with
          hash := [],
          search := if keep.isEmpty then [] else rebuildSearch keep o.search } := by
      refine ⟨hs1, hs2, hs3, hs4, hs5, hh1, hh2, hh3, hh4, hpath, hpq, hph, ?_⟩
      by_cases hk : keep.isEmpty
      · simp [hk]
      · simp only [hk, Bool.false_eq_true, if_false]
        exact rebuildSearch_no_hash keep o.search hq
    have hrt := parseUrl_serializeUrl _ hinv' rfl
    have h1 : normalizeUrlL keep u = serializeUrl
        { o with
          hash := [],
          search := if keep.isEmpty then [] else rebuildSearch keep o.search } := by
      unfold normalizeUrlL
      rw [hp]
    rw [h1]
    unfold normalizeUrlL
    rw [hrt]
    by_cases hk : keep.isEmpty
    · simp [hk]
    · simp only [hk, Bool.false_eq_true, if_false, rebuildSearch_idem]

/-- C9: URL normalization is idempotent — for every URL string and every
fixed `keepQueryParams` configuration, normalizing twice equals normalizing
once. -/
theorem c9_normalize_idempotent (keep : List String) (u : String) :
    normalizeUrl keep (normalizeUrl keep u) = normalizeUrl keep u := by
  unfold normalizeUrl
  exact congrArg String.mk (normalizeUrlL_idem (keep.map String.data) u.data)
